import Mathlib

/-!
# MemProcFS `vmm/statistics.c`: page-read statistics and call statistics

A shallow embedding of the page-read progress tracker (`PageStatInitialize`,
`PageStatUpdate`, the arithmetic of `_PageStatShowUpdate`) and of the function
call statistics (`Statistics_CallSetEnabled`, `Statistics_CallStart`,
`Statistics_CallEnd`, `Statistics_CallToString`).

Conventions.
* `QWORD` and `DWORD` values are natural numbers; every C operation that can
  overflow is reduced `% 2 ^ 64` resp. `% 2 ^ 32` where the source computes it.
* The header `statistics.h` is not part of the sources.  Its constants
  (`PAGE_STATISTICS_MEM_MAP_MAX_ENTRY`, `STATISTICS_ID_MAX`,
  `LEECHCORE_STATISTICS_ID_MAX`, ...) are parameters of the definitions that use
  them; the record fields are the ones `statistics.c` reads and writes.
* Clock readings, allocation results and the answer of the LeechCore statistics
  query are explicit inputs.
-/

namespace Vmm

/-! ## Machine arithmetic -/

/-- `a - b` on `QWORD`s. -/
def subQ (a b : Nat) : Nat := (a + 2 ^ 64 - b % 2 ^ 64) % 2 ^ 64

/-- `a + b` on `QWORD`s. -/
def addQ (a b : Nat) : Nat := (a + b) % 2 ^ 64

/-- `x << 12` on a `QWORD`. -/
def shl12 (x : Nat) : Nat := (x * 4096) % 2 ^ 64

/-! ## Page read statistics -/

/-- One element of `PAGE_STATISTICS.i.MemMap[]`. -/
structure MemMapEntry where
  qwAddrBase : Nat
  cPages : Nat
deriving DecidableEq, Repr

/-- The fields of `PAGE_STATISTICS` (public part and the internal part `i`) that
`statistics.c` uses.  `MemMap` is the array `i.MemMap[PAGE_STATISTICS_MEM_MAP_MAX_ENTRY]`,
read and written by index. -/
structure PAGE_STATISTICS where
  qwAddr : Nat
  cPageTotal : Nat
  cPageSuccess : Nat
  cPageFail : Nat
  fKMD : Bool
  szAction : String
  fUpdate : Bool
  fThreadExit : Bool
  fMemMap : Bool
  fIsFirstPrintCompleted : Bool
  hThread : Nat
  qwTickCountStart : Nat
  MemMapIdx : Nat
  MemMapPrintIdx : Nat
  MemMap : Nat → MemMapEntry

/-- The numbers `_PageStatShowUpdate` computes before it prints. -/
structure Snapshot where
  qwPercentTotal : Nat
  qwPercentSuccess : Nat
  qwPercentFail : Nat
  qwTickCountElapsed : Nat
  qwSpeed : Nat
  isMBs : Bool
deriving DecidableEq, Repr

/-- The arithmetic of `_PageStatShowUpdate` (lines 47-55); `tickNow` is the value
of `GetTickCount64()`.  `none` when the function returns at once because
`cPageTotal` is zero, and when the divisor `cPageTotal * 2` wraps to zero. -/
def _PageStatShowUpdate (ps : PAGE_STATISTICS) (tickNow : Nat) : Option Snapshot :=
  if ps.cPageTotal = 0 then none
  else if (ps.cPageTotal * 2) % 2 ^ 64 = 0 then none
  else
    let qwPercentTotal := (((ps.cPageSuccess + ps.cPageFail) % 2 ^ 64 * 100) % 2 ^ 64) / ps.cPageTotal
    let qwPercentSuccess := ((ps.cPageSuccess * 200 + 1) % 2 ^ 64) / ((ps.cPageTotal * 2) % 2 ^ 64)
    let qwPercentFail := ((ps.cPageFail * 200 + 1) % 2 ^ 64) / ((ps.cPageTotal * 2) % 2 ^ 64)
    let qwTickCountElapsed := subQ tickNow ps.qwTickCountStart
    let qwSpeed :=
      (((ps.cPageSuccess + ps.cPageFail) % 2 ^ 64 * 4) % 2 ^ 64) / ((1 + qwTickCountElapsed / 1000) % 2 ^ 64)
    some
      { qwPercentTotal := qwPercentTotal
        qwPercentSuccess := qwPercentSuccess
        qwPercentFail := qwPercentFail
        qwTickCountElapsed := qwTickCountElapsed
        qwSpeed := qwSpeed
        isMBs := decide (2048 ≤ qwSpeed) }

/-- `PageStatInitialize`: `allocOk` tells whether `LocalAlloc` succeeded, `tick` is
the value of `GetTickCount64()`, `hThread` the handle `CreateThread` returned.
The block is zero-initialised (`LMEM_ZEROINIT`).  `none` is the `FALSE` return. -/
def PageStatInitialize (allocOk : Bool) (tick hThread : Nat) (qwAddrBase qwAddrMax : Nat)
    (szAction : String) (fKMD fMemMap : Bool) : Option PAGE_STATISTICS :=
  if allocOk then
    some
      { qwAddr := qwAddrBase
        cPageTotal := addQ (subQ qwAddrMax qwAddrBase) 1 / 4096
        cPageSuccess := 0
        cPageFail := 0
        fKMD := fKMD
        szAction := szAction
        fUpdate := false
        fThreadExit := false
        fMemMap := fMemMap
        fIsFirstPrintCompleted := false
        hThread := hThread
        qwTickCountStart := tick
        MemMapIdx := 0
        MemMapPrintIdx := 0
        MemMap := fun _ => ⟨0, 0⟩ }
  else none

/-- Start address of the extent an update reports: `qwAddr - (cPageSuccessAdd << 12)`. -/
def extentStart (qwAddr cPageSuccessAdd : Nat) : Nat := subQ qwAddr (shl12 cPageSuccessAdd)

/-- End address of a memory map entry: `qwAddrBase + ((QWORD)cPages << 12)`. -/
def entryEnd (e : MemMapEntry) : Nat := addQ e.qwAddrBase (shl12 e.cPages)

/-- The memory map part of `PageStatUpdate` (lines 168-174) on the fields
`MemMapIdx` and `MemMap`; `maxEntry` is `PAGE_STATISTICS_MEM_MAP_MAX_ENTRY`. -/
def memMapAdd (maxEntry : Nat) (idx : Nat) (mm : Nat → MemMapEntry)
    (qwAddr cPageSuccessAdd : Nat) : Nat × (Nat → MemMapEntry) :=
  if cPageSuccessAdd ≠ 0 ∧ idx < maxEntry - 1 then
    if idx = 0 ∨ extentStart qwAddr cPageSuccessAdd ≠ entryEnd (mm idx) then
      let idx1 := idx + 1
      let mm1 := Function.update mm idx1 { mm idx1 with qwAddrBase := extentStart qwAddr cPageSuccessAdd }
      (idx1, Function.update mm1 idx1
        { mm1 idx1 with cPages := ((mm1 idx1).cPages + cPageSuccessAdd % 2 ^ 32) % 2 ^ 32 })
    else
      (idx, Function.update mm idx
        { mm idx with cPages := ((mm idx).cPages + cPageSuccessAdd % 2 ^ 32) % 2 ^ 32 })
  else (idx, mm)

/-- `PageStatUpdate`; a null `pPageStat` (`none`) is left alone. -/
def PageStatUpdate (maxEntry : Nat) (pPageStat : Option PAGE_STATISTICS)
    (qwAddr cPageSuccessAdd cPageFailAdd : Nat) : Option PAGE_STATISTICS :=
  match pPageStat with
  | none => none
  | some ps =>
    let r := memMapAdd maxEntry ps.MemMapIdx ps.MemMap qwAddr cPageSuccessAdd
    some
      { ps with
        qwAddr := qwAddr
        cPageSuccess := addQ ps.cPageSuccess cPageSuccessAdd
        cPageFail := addQ ps.cPageFail cPageFailAdd
        MemMapIdx := r.1
        MemMap := r.2
        fUpdate := true }

/-- The arguments of one `PageStatUpdate` call. -/
structure Upd where
  qwAddr : Nat
  cPageSuccessAdd : Nat
  cPageFailAdd : Nat
deriving DecidableEq, Repr

/-- A sequence of `PageStatUpdate` calls, in order. -/
def runUpdates (maxEntry : Nat) (p : Option PAGE_STATISTICS) (us : List Upd) :
    Option PAGE_STATISTICS :=
  us.foldl (fun q u => PageStatUpdate maxEntry q u.qwAddr u.cPageSuccessAdd u.cPageFailAdd) p

/-- The recorded runs: `MemMap[1] .. MemMap[MemMapIdx]` (entry 0 is never used). -/
def memMapRuns (ps : PAGE_STATISTICS) : List MemMapEntry :=
  (List.range ps.MemMapIdx).map (fun i => ps.MemMap (i + 1))

/-- Sum of the `cPageSuccessAdd` arguments of a sequence of updates. -/
def sumSuccess (us : List Upd) : Nat := (us.map (fun u => u.cPageSuccessAdd)).sum

/-- Sum of the `cPageFailAdd` arguments of a sequence of updates. -/
def sumFail (us : List Upd) : Nat := (us.map (fun u => u.cPageFailAdd)).sum

/-- A contiguous sequence of successful updates after address `a0`: every update
reports at least one page, its address is a `QWORD`, and its extent starts (as
`PageStatUpdate` computes the start) where the previous one ended. -/
def Contig : Nat → List Upd → Prop
  | _, [] => True
  | a0, u :: us =>
    u.cPageSuccessAdd ≠ 0 ∧ u.qwAddr < 2 ^ 64 ∧
      extentStart u.qwAddr u.cPageSuccessAdd = a0 ∧ Contig u.qwAddr us

instance Contig.instDecidable : ∀ (a0 : Nat) (us : List Upd), Decidable (Contig a0 us)
  | _, [] => isTrue trivial
  | a0, u :: us =>
    have := Contig.instDecidable u.qwAddr us
    inferInstanceAs (Decidable (u.cPageSuccessAdd ≠ 0 ∧ u.qwAddr < 2 ^ 64 ∧
      extentStart u.qwAddr u.cPageSuccessAdd = a0 ∧ Contig u.qwAddr us))

/-- Per-page updates in address order over `n` pages from `qwAddrBase`: update `i`
reports page `i` (address after the page `qwAddrBase + (i + 1) * 4096`), as one
failed page if `isFailed i`, else as one successfully read page. -/
def pageUpdates (qwAddrBase n : Nat) (isFailed : Nat → Bool) : List Upd :=
  (List.range n).map (fun i =>
    if isFailed i then ⟨qwAddrBase + (i + 1) * 4096, 0, 1⟩
    else ⟨qwAddrBase + (i + 1) * 4096, 1, 0⟩)

/-- Run `a` lies before run `b`: its base is smaller and it ends (base plus
`cPages` pages of 4096 bytes) at or before the base of `b`. -/
def Before (a b : MemMapEntry) : Prop :=
  a.qwAddrBase < b.qwAddrBase ∧ a.qwAddrBase + a.cPages * 4096 ≤ b.qwAddrBase

instance Before.instDecidable (a b : MemMapEntry) : Decidable (Before a b) :=
  inferInstanceAs (Decidable (_ ∧ _))

/-- Updates made in ascending address order after current address `a0`: each
address is a `QWORD` and lies at least `cPageSuccessAdd` pages above the address
of the previous update. -/
def Ascending : Nat → List Upd → Prop
  | _, [] => True
  | a0, u :: us =>
    a0 + u.cPageSuccessAdd * 4096 ≤ u.qwAddr ∧ u.qwAddr < 2 ^ 64 ∧ Ascending u.qwAddr us

instance Ascending.instDecidable : ∀ (a0 : Nat) (us : List Upd), Decidable (Ascending a0 us)
  | _, [] => isTrue trivial
  | a0, u :: us =>
    have := Ascending.instDecidable u.qwAddr us
    inferInstanceAs (Decidable (a0 + u.cPageSuccessAdd * 4096 ≤ u.qwAddr ∧ u.qwAddr < 2 ^ 64 ∧
      Ascending u.qwAddr us))

/-- A tracker whose memory map is at the ceiling for
`PAGE_STATISTICS_MEM_MAP_MAX_ENTRY = 2048`: 2047 one-page runs, run `i` at
`(2 * i - 1) * 0x1000`, the current address at the end of the last run. -/
def fullMapState : PAGE_STATISTICS :=
  { qwAddr := 0xffe000
    cPageTotal := 0x1000
    cPageSuccess := 2047
    cPageFail := 2047
    fKMD := false
    szAction := "dump"
    fUpdate := true
    fThreadExit := false
    fMemMap := true
    fIsFirstPrintCompleted := true
    hThread := 1
    qwTickCountStart := 0
    MemMapIdx := 2047
    MemMapPrintIdx := 0
    MemMap := fun i => if 1 ≤ i ∧ i ≤ 2047 then ⟨(2 * i - 1) * 0x1000, 1⟩ else ⟨0, 0⟩ }

/-- What ascending updates keep true of a tracker: the current address is a
`QWORD`, entries above `MemMapIdx` have no pages, every recorded run has a
32-bit page count and lies below the current address, and earlier runs lie
before later ones. -/
structure MapInv (ps : PAGE_STATISTICS) : Prop where
  addr_lt : ps.qwAddr < 2 ^ 64
  above : ∀ i, ps.MemMapIdx < i → (ps.MemMap i).cPages = 0
  below : ∀ i, 1 ≤ i → i ≤ ps.MemMapIdx →
    (ps.MemMap i).cPages < 2 ^ 32 ∧ (ps.MemMap i).qwAddrBase < ps.qwAddr ∧
      (ps.MemMap i).qwAddrBase + (ps.MemMap i).cPages * 4096 ≤ ps.qwAddr
  ordered : ∀ i j, 1 ≤ i → i < j → j ≤ ps.MemMapIdx → Before (ps.MemMap i) (ps.MemMap j)

/-! ## Function call statistics -/

/-- The display names of the call statistics, `NAMES_VMM_STATISTICS_CALL[]`. -/
def NAMES_VMM_STATISTICS_CALL : List String :=
  [ "INITIALIZE",
    "PluginManager_List",
    "PluginManager_Read",
    "PluginManager_Write",
    "PluginManager_Notify",
    "VMMDLL_VfsList",
    "VMMDLL_VfsRead",
    "VMMDLL_VfsWrite",
    "VMMDLL_VfsInitializePlugins",
    "VMMDLL_MemReadEx",
    "VMMDLL_MemReadScatter",
    "VMMDLL_MemWrite",
    "VMMDLL_MemVirt2Phys",
    "VMMDLL_MemPrefetchPages",
    "VMMDLL_PidList",
    "VMMDLL_PidGetFromName",
    "VMMDLL_ProcessGetInformation",
    "VMMDLL_ProcessGetInformationString",
    "VMMDLL_ProcessGetMemoryMap",
    "VMMDLL_ProcessGetMemoryMapEntry",
    "VMMDLL_ProcessGetModuleMap",
    "VMMDLL_ProcessGetModuleFromName",
    "VMMDLL_ProcessGetDirectories",
    "VMMDLL_ProcessGetSections",
    "VMMDLL_ProcessGetEAT",
    "VMMDLL_ProcessGetIAT",
    "VMMDLL_ProcessGetProcAddress",
    "VMMDLL_ProcessGetModuleBase",
    "VMMDLL_WinGetThunkEAT",
    "VMMDLL_WinGetThunkIAT",
    "VMMDLL_WinMemCompression_DecompressPage",
    "VMMDLL_WinRegHive_List",
    "VMMDLL_WinRegHive_ReadEx",
    "VMMDLL_WinRegHive_Write",
    "VMMDLL_WinReg_EnumKeyExW",
    "VMMDLL_WinReg_EnumValueW",
    "VMMDLL_WinReg_QueryValueExW",
    "VMMDLL_WinNet_Get",
    "VMMDLL_Refresh",
    "VMMDLL_UtilFillHexAscii",
    "VMMDLL_PdbSymbolAddress",
    "VMMDLL_PdbTypeSize",
    "VMMDLL_PdbTypeChildOffset",
    "VMM_PagedCompressedMemory" ]

/-- One counter pair, `CALLSTAT`. -/
structure CALLSTAT where
  c : Nat
  tm : Nat
deriving DecidableEq, Repr

/-- The part of `ctxMain` the statistics use: `pvStatistics` is `none` for `NULL`,
otherwise the table of `STATISTICS_ID_MAX + 1` counter pairs, read by index. -/
structure VMM_MAIN_CONTEXT where
  pvStatistics : Option (Nat → CALLSTAT)

/-- `Statistics_CallSetEnabled`; `allocOk` tells whether `LocalAlloc` succeeds when
it is called (the table is zero-initialised, `LMEM_ZEROINIT`). -/
def Statistics_CallSetEnabled (allocOk : Bool) (fEnabled : Bool) (ctxMain : VMM_MAIN_CONTEXT) :
    VMM_MAIN_CONTEXT :=
  if fEnabled && ctxMain.pvStatistics.isSome then ctxMain
  else if !fEnabled && ctxMain.pvStatistics.isNone then ctxMain
  else if fEnabled then
    { pvStatistics := if allocOk then some (fun _ => ⟨0, 0⟩) else none }
  else
    { pvStatistics := none }

/-- `Statistics_CallGetEnabled`. -/
def Statistics_CallGetEnabled (ctxMain : VMM_MAIN_CONTEXT) : Bool :=
  ctxMain.pvStatistics.isSome

/-- `Statistics_CallStart`; `tmNow` is the value `QueryPerformanceCounter` would
store. -/
def Statistics_CallStart (ctxMain : VMM_MAIN_CONTEXT) (tmNow : Nat) : Nat :=
  match ctxMain.pvStatistics with
  | none => 0
  | some _ => tmNow

/-- `Statistics_CallEnd`, run without interleaving; `tmNow` is the value
`QueryPerformanceCounter` stores, `idMax` is `STATISTICS_ID_MAX`.  Returns the new
context and the returned `QWORD`. -/
def Statistics_CallEnd (idMax : Nat) (ctxMain : VMM_MAIN_CONTEXT) (fId tmCallStart tmNow : Nat) :
    VMM_MAIN_CONTEXT × Nat :=
  match ctxMain.pvStatistics with
  | none => (ctxMain, 0)
  | some t =>
    if fId > idMax then (ctxMain, 0)
    else if tmCallStart = 0 then (ctxMain, 0)
    else
      let t1 := Function.update t fId { t fId with c := addQ (t fId).c 1 }
      let t2 := Function.update t1 fId { t1 fId with tm := addQ (t1 fId).tm (subQ tmNow tmCallStart) }
      ({ pvStatistics := some t2 }, subQ tmNow tmCallStart)

/-- One pair `Statistics_CallEnd(fId, Statistics_CallStart())`: `tmStart` and `tmEnd`
are the two clock readings. -/
def callPair (idMax : Nat) (ctxMain : VMM_MAIN_CONTEXT) (fId tmStart tmEnd : Nat) :
    VMM_MAIN_CONTEXT × Nat :=
  Statistics_CallEnd idMax ctxMain fId (Statistics_CallStart ctxMain tmStart) tmEnd

/-- A sequence of pairs for one `fId`, each given by its two clock readings; returns
the final context and the list of values the `Statistics_CallEnd` calls returned. -/
def runPairs (idMax : Nat) (fId : Nat) :
    VMM_MAIN_CONTEXT → List (Nat × Nat) → VMM_MAIN_CONTEXT × List Nat
  | ctxMain, [] => (ctxMain, [])
  | ctxMain, p :: ps =>
    let r := callPair idMax ctxMain fId p.1 p.2
    let rest := runPairs idMax fId r.1 ps
    (rest.1, r.2 :: rest.2)

/-! ### The textual report -/

/-- `%-40.40s`: at most 40 characters of the name, padded on the right to 40. -/
def fmtName (name : List Char) : List Char :=
  name.take 40 ++ List.replicate (40 - (name.take 40).length) ' '

/-- A signed decimal number as `printf` writes it. -/
def fmtInt (v : Int) : List Char :=
  if v < 0 then '-' :: Nat.toDigits 10 v.natAbs else Nat.toDigits 10 v.toNat

/-- Right-justify in a field of minimum width `w` (`%8i`, `%16lli`). -/
def padLeft (w : Nat) (s : List Char) : List Char :=
  List.replicate (w - s.length) ' ' ++ s

/-- The `int` that `%i` reads from a 32-bit argument. -/
def asInt32 (x : Nat) : Int :=
  if x % 2 ^ 32 < 2 ^ 31 then ((x % 2 ^ 32 : Nat) : Int) else ((x % 2 ^ 32 : Nat) : Int) - 2 ^ 32

/-- The `long long` that `%lli` reads from a 64-bit argument. -/
def asInt64 (x : Nat) : Int :=
  if x % 2 ^ 64 < 2 ^ 63 then ((x % 2 ^ 64 : Nat) : Int) else ((x % 2 ^ 64 : Nat) : Int) - 2 ^ 64

/-- The text of one row, format `"%-40.40s  %8i  %8i  %16lli\n"`. -/
def fmtRow (name : List Char) (calls avg total : Nat) : List Char :=
  fmtName name ++ [' ', ' '] ++ padLeft 8 (fmtInt (asInt32 calls)) ++ [' ', ' '] ++
    padLeft 8 (fmtInt (asInt32 avg)) ++ [' ', ' '] ++ padLeft 16 (fmtInt (asInt64 total)) ++ ['\n']

/-- The text of the four header lines; `%s` is `"ENABLED "` or `"DISABLED"`.  The
fourth line is 78 times `=` and a newline. -/
def fmtHeader (enabled : Bool) : List Char :=
  "FUNCTION CALL STATISTICS:                                                     \n".toList ++
  "VALUES IN DECIMAL, TIME IN MICROSECONDS uS, STATISTICS = ".toList ++
  (if enabled then "ENABLED ".toList else "DISABLED".toList) ++
  "             \n".toList ++
  "FUNCTION CALL NAME                           CALLS  TIME AVG        TIME TOTAL\n".toList ++
  List.replicate 78 '=' ++ ['\n']

/-- Progress of `Statistics_CallToString` through the buffer: the offset `o` and
the bytes stored so far, each with its offset from `pb`, in program order. -/
structure OutState where
  o : Nat
  writes : List (Nat × Char)

/-- The statement `o += snprintf(pb + o, cb - o, ...)` for a call whose formatted
text is `txt`: with `n = cb - o` (a `DWORD` difference) it stores nothing if `n = 0`,
else the first `n - 1` characters of `txt` and a terminating NUL; it returns the
length of `txt`, which is added to the `DWORD` `o`. -/
def snprintfAt (cb : Nat) (st : OutState) (txt : List Char) : OutState :=
  let n := (cb + 2 ^ 32 - st.o % 2 ^ 32) % 2 ^ 32
  let stored := if n = 0 then [] else txt.take (n - 1) ++ [Char.ofNat 0]
  { o := (st.o + txt.length) % 2 ^ 32
    writes := st.writes ++ stored.enum.map (fun p => (st.o + p.1, p.2)) }

/-- The statistics block LeechCore returns, `LEECHCORE_STATISTICS`. -/
structure LEECHCORE_STATISTICS where
  magic : Nat
  version : Nat
  qwFreq : Nat
  Call : Nat → CALLSTAT

/-- The constants and tables of `statistics.h` and `leechcore.h` the report uses. -/
structure ReportConsts where
  STATISTICS_ID_MAX : Nat
  LEECHCORE_STATISTICS_ID_MAX : Nat
  LEECHCORE_STATISTICS_MAGIC : Nat
  LEECHCORE_STATISTICS_VERSION : Nat
  LEECHCORE_STATISTICS_NAME : Nat → List Char

/-- The text of the row of call statistic `i` (body of the first loop): the
counters when the table exists and `c` is non-zero, else zeros.  `qwFreq` is the
value of `QueryPerformanceFrequency`. -/
def callRow (qwFreq : Nat) (ctxMain : VMM_MAIN_CONTEXT) (i : Nat) : List Char :=
  let name := (NAMES_VMM_STATISTICS_CALL.getD i "").toList
  match ctxMain.pvStatistics with
  | some t =>
    if (t i).c ≠ 0 then
      let uS := ((t i).tm * 1000000 % 2 ^ 64) / qwFreq
      fmtRow name (t i).c (uS / (t i).c) uS
    else fmtRow name 0 0 0
  | none => fmtRow name 0 0 0

/-- The text of the row of LeechCore statistic `i` (body of the second loop). -/
def leechCoreRow (k : ReportConsts) (lcs : LEECHCORE_STATISTICS) (i : Nat) : List Char :=
  if (lcs.Call i).c ≠ 0 then
    let uS := ((lcs.Call i).tm * 1000000 % 2 ^ 64) / lcs.qwFreq
    fmtRow (k.LEECHCORE_STATISTICS_NAME i) (lcs.Call i).c (uS / (lcs.Call i).c) uS
  else fmtRow (k.LEECHCORE_STATISTICS_NAME i) 0 0 0

/-- The condition under which the LeechCore rows are printed (line 322);
`result` is the return value of `LeechCore_CommandData`. -/
def leechCoreValid (k : ReportConsts) (result : Bool) (lcs : LEECHCORE_STATISTICS) : Bool :=
  result && decide (lcs.magic = k.LEECHCORE_STATISTICS_MAGIC) &&
    decide (lcs.version = k.LEECHCORE_STATISTICS_VERSION) && decide (lcs.qwFreq ≠ 0)

/-- What `Statistics_CallToString` does: the bytes it stores through `pb` and the
value it stores in `*pcb`. -/
structure Report where
  writes : List (Nat × Char)
  pcb : Nat

/-- `Statistics_CallToString`.  `pb` tells whether a buffer is passed (`false` is
`NULL`), `cb` is its stated capacity, `qwFreq` the performance counter frequency,
`result` and `lcs` the answer of `LeechCore_CommandData`. -/
def Statistics_CallToString (k : ReportConsts) (ctxMain : VMM_MAIN_CONTEXT) (qwFreq : Nat)
    (result : Bool) (lcs : LEECHCORE_STATISTICS) (pb : Bool) (cb : Nat) : Report :=
  if !pb then
    { writes := [], pcb := (79 * (k.STATISTICS_ID_MAX + k.LEECHCORE_STATISTICS_ID_MAX + 6)) % 2 ^ 32 }
  else
    let st0 := snprintfAt cb ⟨0, []⟩ (fmtHeader ctxMain.pvStatistics.isSome)
    let st1 := (List.range (k.STATISTICS_ID_MAX + 1)).foldl
      (fun st i => snprintfAt cb st (callRow qwFreq ctxMain i)) st0
    let st2 :=
      if leechCoreValid k result lcs then
        (List.range (k.LEECHCORE_STATISTICS_ID_MAX + 1)).foldl
          (fun st i => snprintfAt cb st (leechCoreRow k lcs i)) st1
      else st1
    { writes := st2.writes ++ [((st2.o + 2 ^ 32 - 1) % 2 ^ 32, '\n')], pcb := st2.o }

/-- A 32-bit argument that `%8i` prints in at most 8 characters: read as an `int`
it lies strictly between -10^7 and 10^8. -/
def fits8 (x : Nat) : Prop := -10000000 < asInt32 x ∧ asInt32 x < 100000000

instance fits8.instDecidable (x : Nat) : Decidable (fits8 x) :=
  inferInstanceAs (Decidable (_ ∧ _))

/-- A 64-bit argument that `%16lli` prints in at most 16 characters: read as a
`long long` it lies strictly between -10^15 and 10^16. -/
def fits16 (x : Nat) : Prop :=
  -1000000000000000 < asInt64 x ∧ asInt64 x < 10000000000000000

instance fits16.instDecidable (x : Nat) : Decidable (fits16 x) :=
  inferInstanceAs (Decidable (_ ∧ _))

/-- The three numbers of a printed row fit their columns, as `printf` reads them:
the count `(DWORD)c` and the average `(DWORD)(uS / c)` through `%8i`, the total `uS`
through `%16lli`. -/
def rowFits (qwFreq : Nat) (st : CALLSTAT) : Prop :=
  fits8 st.c ∧
    fits8 (((st.tm * 1000000 % 2 ^ 64) / qwFreq) / st.c) ∧
    fits16 ((st.tm * 1000000 % 2 ^ 64) / qwFreq)

instance rowFits.instDecidable (qwFreq : Nat) (st : CALLSTAT) : Decidable (rowFits qwFreq st) :=
  inferInstanceAs (Decidable (_ ∧ _ ∧ _))

/-- Sample header constants: 44 call statistics (`STATISTICS_ID_MAX = 43`, the
size of `NAMES_VMM_STATISTICS_CALL`), 8 LeechCore statistics, and sample values for
the magic, the version and the LeechCore names. -/
def sampleConsts : ReportConsts :=
  { STATISTICS_ID_MAX := 43
    LEECHCORE_STATISTICS_ID_MAX := 7
    LEECHCORE_STATISTICS_MAGIC := 0xffff6550
    LEECHCORE_STATISTICS_VERSION := 2
    LEECHCORE_STATISTICS_NAME := fun i => ("LC_" ++ toString i).toList }

/-- The zero-initialised block `LeechCoreStatistics = { 0 }`, as it stays when the
query fails. -/
def zeroLeechCoreStatistics : LEECHCORE_STATISTICS :=
  { magic := 0, version := 0, qwFreq := 0, Call := fun _ => ⟨0, 0⟩ }

/-- A sample enabled registry: `VMMDLL_VfsRead` (index 6) called 3 times for 150
ticks, nothing else called. -/
def sampleContext : VMM_MAIN_CONTEXT :=
  { pvStatistics := some (fun i => if i = 6 then ⟨3, 150⟩ else ⟨0, 0⟩) }

/-- A sample valid LeechCore block for `sampleConsts`: every statistic called twice
for 40 ticks at 10 MHz. -/
def sampleLeechCoreStatistics : LEECHCORE_STATISTICS :=
  { magic := 0xffff6550, version := 2, qwFreq := 10000000, Call := fun _ => ⟨2, 40⟩ }

/-- A sample enabled registry with one nine-digit count: `INITIALIZE` (index 0)
called 10^8 times for 5 * 10^9 ticks, nothing else called. -/
def wideContext : VMM_MAIN_CONTEXT :=
  { pvStatistics := some (fun i => if i = 0 then ⟨100000000, 5000000000⟩ else ⟨0, 0⟩) }

/-! ## Theorems -/

/-! ### `_PageStatShowUpdate`: the percentages -/

/-- The `+ 1` in `(x * 200 + 1) / (total * 2)` never changes the quotient: without
overflow the expression equals the truncating `x * 100 / total`. -/
theorem percent_bias_dead (x total : Nat) :
    (x * 200 + 1) / (total * 2) = x * 100 / total := by
  have h2 : (x * 200 + 1) / (total * 2) = (x * 200 + 1) / 2 / total := by
    rw [Nat.mul_comm total 2, Nat.div_div_eq_div_mul]
  have h3 : (x * 200 + 1) / 2 = x * 100 := by omega
  rw [h2, h3]

/-- C1: for `cPageTotal = 1000`, `cPageSuccess = 999`, `cPageFail = 0` the value
`qwPercentSuccess` computed by `_PageStatShowUpdate` is 99 (not 100), whatever the
other fields and the clock reading are. -/
theorem percentSuccess_999_of_1000 (ps : PAGE_STATISTICS) (tickNow : Nat) :
    (_PageStatShowUpdate
        { ps with cPageTotal := 1000, cPageSuccess := 999, cPageFail := 0 } tickNow).map
      (fun r => r.qwPercentSuccess) = some 99 := by
  have h1 : (1000 * 2) % 2 ^ 64 ≠ 0 := by norm_num
  have h2 : ((999 * 200 + 1) % 2 ^ 64) / ((1000 * 2) % 2 ^ 64) = 99 := by norm_num
  simp only [_PageStatShowUpdate, h1, h2, if_false, Option.map_some']
  simp

/-! ### `Statistics_CallSetEnabled`, `Statistics_CallStart`, `Statistics_CallEnd` -/

theorem callEnd_enabled (idMax : Nat) (t : Nat → CALLSTAT) (fId tmCallStart tmNow : Nat)
    (hId : fId ≤ idMax) (hs : tmCallStart ≠ 0) :
    Statistics_CallEnd idMax ⟨some t⟩ fId tmCallStart tmNow =
      (⟨some (Function.update t fId
          ⟨addQ (t fId).c 1, addQ (t fId).tm (subQ tmNow tmCallStart)⟩)⟩,
        subQ tmNow tmCallStart) := by
  have h1 : ¬ fId > idMax := by omega
  simp [Statistics_CallEnd, h1, hs]

theorem addQ_addQ (a b c : Nat) : addQ (addQ a b) c = addQ a (b + c) := by
  unfold addQ; omega

/-- Pairs on an enabled table: counters of `K` advance by the number of pairs and
by the sum of the returned deltas, the other entries stay. -/
theorem runPairs_enabled (idMax K : Nat) (hK : K ≤ idMax) (pairs : List (Nat × Nat))
    (hstart : ∀ p ∈ pairs, p.1 ≠ 0) (t : Nat → CALLSTAT)
    (hc0 : (t K).c < 2 ^ 64) (htm0 : (t K).tm < 2 ^ 64) :
    ∃ t1, (runPairs idMax K ⟨some t⟩ pairs).1.pvStatistics = some t1 ∧
      (t1 K).c = addQ (t K).c pairs.length ∧
      (t1 K).tm = addQ (t K).tm (runPairs idMax K ⟨some t⟩ pairs).2.sum ∧
      (runPairs idMax K ⟨some t⟩ pairs).2 = pairs.map (fun p => subQ p.2 p.1) ∧
      ∀ j, j ≠ K → t1 j = t j := by
  induction pairs generalizing t with
  | nil =>
    refine ⟨t, rfl, ?_, ?_, rfl, fun _ _ => rfl⟩
    · simp only [addQ, List.length_nil]; omega
    · simp only [runPairs, addQ, List.sum_nil]; omega
  | cons p ps ih =>
    have hp : p.1 ≠ 0 := hstart p (List.mem_cons_self _ _)
    have hps : ∀ q ∈ ps, q.1 ≠ 0 := fun q hq => hstart q (List.mem_cons_of_mem _ hq)
    have hstep : callPair idMax ⟨some t⟩ K p.1 p.2 =
        (⟨some (Function.update t K ⟨addQ (t K).c 1, addQ (t K).tm (subQ p.2 p.1)⟩)⟩,
          subQ p.2 p.1) := by
      simp only [callPair, Statistics_CallStart]
      exact callEnd_enabled idMax t K p.1 p.2 hK hp
    obtain ⟨t1, h1, hc, htm, hl, hother⟩ :=
      ih hps (Function.update t K ⟨addQ (t K).c 1, addQ (t K).tm (subQ p.2 p.1)⟩)
        (by simp only [Function.update_same, addQ]; omega)
        (by simp only [Function.update_same, addQ]; omega)
    refine ⟨t1, ?_, ?_, ?_, ?_, ?_⟩
    · simp only [runPairs, hstep]; exact h1
    · rw [hc]; simp [addQ_addQ, Nat.add_comm]
    · simp only [runPairs, hstep, List.sum_cons]
      rw [htm]; simp [addQ_addQ]
    · simp only [runPairs, hstep, List.map_cons]; rw [hl]
    · intro j hj
      rw [hother j hj, Function.update_noteq hj]

/-- C3: on a registry that was just enabled (table zeroed), after any sequence of
pairs `Statistics_CallEnd(K, Statistics_CallStart())` with `K ≤ STATISTICS_ID_MAX`
and non-zero start readings, entry `K` has `c` equal to the number of pairs
(mod 2^64, hence exactly that number below 2^64) and `tm` equal to the sum
(mod 2^64) of the values the `Statistics_CallEnd` calls returned, each of which is
the `QWORD` difference of the two readings; every other entry is still zero. -/
theorem call_accounting (idMax K : Nat) (hK : K ≤ idMax) (pairs : List (Nat × Nat))
    (hstart : ∀ p ∈ pairs, p.1 ≠ 0) :
    ∃ t, (runPairs idMax K (Statistics_CallSetEnabled true true ⟨none⟩) pairs).1.pvStatistics
          = some t ∧
      (t K).c = pairs.length % 2 ^ 64 ∧
      (pairs.length < 2 ^ 64 → (t K).c = pairs.length) ∧
      (t K).tm =
        (runPairs idMax K (Statistics_CallSetEnabled true true ⟨none⟩) pairs).2.sum % 2 ^ 64 ∧
      (runPairs idMax K (Statistics_CallSetEnabled true true ⟨none⟩) pairs).2 =
        pairs.map (fun p => subQ p.2 p.1) ∧
      ∀ j, j ≠ K → t j = ⟨0, 0⟩ := by
  have hen : Statistics_CallSetEnabled true true ⟨none⟩ = ⟨some (fun _ => ⟨0, 0⟩)⟩ := by
    simp [Statistics_CallSetEnabled]
  rw [hen]
  obtain ⟨t1, h1, hc, htm, hl, hother⟩ :=
    runPairs_enabled idMax K hK pairs hstart (fun _ => ⟨0, 0⟩) (by norm_num) (by norm_num)
  refine ⟨t1, h1, ?_, ?_, ?_, hl, hother⟩
  · rw [hc]; simp [addQ]
  · intro hlt; rw [hc]; simp only [addQ, Nat.zero_add]; exact Nat.mod_eq_of_lt hlt
  · rw [htm]; simp [addQ]

/-- C3 witness: three pairs for kind 5 with readings (10, 25), (30, 31), (7, 3). -/
theorem call_accounting_witness :
    (5 ≤ 43 ∧ ∀ p ∈ [((10 : Nat), (25 : Nat)), (30, 31), (7, 3)], p.1 ≠ 0) ∧
    ∃ t, (runPairs 43 5 (Statistics_CallSetEnabled true true ⟨none⟩)
            [(10, 25), (30, 31), (7, 3)]).1.pvStatistics = some t ∧
      (t 5).c = [((10 : Nat), (25 : Nat)), (30, 31), (7, 3)].length % 2 ^ 64 ∧
      ([((10 : Nat), (25 : Nat)), (30, 31), (7, 3)].length < 2 ^ 64 →
        (t 5).c = [((10 : Nat), (25 : Nat)), (30, 31), (7, 3)].length) ∧
      (t 5).tm =
        (runPairs 43 5 (Statistics_CallSetEnabled true true ⟨none⟩)
          [(10, 25), (30, 31), (7, 3)]).2.sum % 2 ^ 64 ∧
      (runPairs 43 5 (Statistics_CallSetEnabled true true ⟨none⟩)
          [(10, 25), (30, 31), (7, 3)]).2 =
        [((10 : Nat), (25 : Nat)), (30, 31), (7, 3)].map (fun p => subQ p.2 p.1) ∧
      ∀ j, j ≠ 5 → t j = ⟨0, 0⟩ :=
  ⟨⟨by decide, by decide⟩,
    call_accounting 43 5 (by decide) [(10, 25), (30, 31), (7, 3)] (by decide)⟩

/-- C4: `Statistics_CallEnd` returns 0 and leaves the context (hence every counter)
as it was when the registry is disabled, or `fId > STATISTICS_ID_MAX`, or
`tmCallStart = 0`; `Statistics_CallStart` returns 0 when the registry is disabled. -/
theorem call_ignored (idMax : Nat) (ctxMain : VMM_MAIN_CONTEXT) (fId tmCallStart tmNow : Nat) :
    ((ctxMain.pvStatistics = none ∨ idMax < fId ∨ tmCallStart = 0) →
      Statistics_CallEnd idMax ctxMain fId tmCallStart tmNow = (ctxMain, 0)) ∧
    (ctxMain.pvStatistics = none → Statistics_CallStart ctxMain tmNow = 0) := by
  constructor
  · intro h
    unfold Statistics_CallEnd
    cases hp : ctxMain.pvStatistics with
    | none => rfl
    | some t =>
      rcases h with h | h | h
      · rw [hp] at h; cases h
      · simp [h]
      · simp [h]
  · intro h
    simp [Statistics_CallStart, h]

/-- C4 witness: an enabled table with counts, called with an out-of-range kind; and
a disabled registry. -/
theorem call_ignored_witness :
    ((43 < 44) ∧
      Statistics_CallEnd 43 ⟨some (fun _ => ⟨3, 70⟩)⟩ 44 5 9 = (⟨some (fun _ => ⟨3, 70⟩)⟩, 0)) ∧
    ((⟨none⟩ : VMM_MAIN_CONTEXT).pvStatistics = none ∧ Statistics_CallStart ⟨none⟩ 9 = 0) :=
  ⟨⟨by decide,
      (call_ignored 43 ⟨some (fun _ => ⟨3, 70⟩)⟩ 44 5 9).1 (Or.inr (Or.inl (by decide)))⟩,
    ⟨rfl, (call_ignored 43 ⟨none⟩ 44 5 9).2 rfl⟩⟩

/-- C5 counterexample: on a disabled registry a first `Statistics_CallSetEnabled(TRUE)`
whose `LocalAlloc` fails leaves the registry disabled, and a second call whose
`LocalAlloc` succeeds enables it: two calls do not give the state of one. -/
theorem setEnabled_retry_after_failed_alloc :
    Statistics_CallGetEnabled (Statistics_CallSetEnabled false true ⟨none⟩) = false ∧
    Statistics_CallGetEnabled
      (Statistics_CallSetEnabled true true (Statistics_CallSetEnabled false true ⟨none⟩)) = true ∧
    Statistics_CallSetEnabled true true (Statistics_CallSetEnabled false true ⟨none⟩) ≠
      Statistics_CallSetEnabled false true ⟨none⟩ := by
  refine ⟨by decide, by decide, ?_⟩
  intro h
  have h2 := congrArg Statistics_CallGetEnabled h
  revert h2
  decide

/-- C5 (amended): for every context, flag and pair of allocation outcomes (one for
each call), two calls of `Statistics_CallSetEnabled` in a row give the same context
as one, except when the first call has to allocate (flag `TRUE` on a disabled
registry), its `LocalAlloc` fails and that of the second call succeeds; a call with
`TRUE` on an enabled registry returns the very same table, whatever the allocator
would do; two calls with `FALSE` leave the registry disabled. -/
theorem setEnabled_idempotent (alloc1 alloc2 fEnabled : Bool) (ctxMain : VMM_MAIN_CONTEXT) :
    ((alloc1 = true ∨ alloc2 = false ∨ fEnabled = false ∨ ctxMain.pvStatistics ≠ none) →
      Statistics_CallSetEnabled alloc2 fEnabled
          (Statistics_CallSetEnabled alloc1 fEnabled ctxMain) =
        Statistics_CallSetEnabled alloc1 fEnabled ctxMain) ∧
    (∀ t, Statistics_CallSetEnabled alloc2 true ⟨some t⟩ = ⟨some t⟩) ∧
    Statistics_CallGetEnabled
      (Statistics_CallSetEnabled alloc2 false
        (Statistics_CallSetEnabled alloc1 false ctxMain)) = false := by
  obtain ⟨pv⟩ := ctxMain
  refine ⟨?_, ?_, ?_⟩
  · intro h
    cases pv <;> cases fEnabled <;> cases alloc1 <;> cases alloc2 <;>
      simp [Statistics_CallSetEnabled] at h ⊢
  · intro t; simp [Statistics_CallSetEnabled]
  · cases pv <;> simp [Statistics_CallSetEnabled, Statistics_CallGetEnabled]

/-- C5 witness: enabling a disabled registry with a successful allocation, then a
second call whose allocation would fail; and a populated table enabled again. -/
theorem setEnabled_idempotent_witness :
    ((true = true ∨ false = false ∨ true = false ∨
        (⟨none⟩ : VMM_MAIN_CONTEXT).pvStatistics ≠ none) ∧
      Statistics_CallSetEnabled false true (Statistics_CallSetEnabled true true ⟨none⟩) =
        Statistics_CallSetEnabled true true ⟨none⟩) ∧
    Statistics_CallSetEnabled false true ⟨some (fun _ => ⟨3, 70⟩)⟩ =
      ⟨some (fun _ => ⟨3, 70⟩)⟩ :=
  ⟨⟨Or.inl rfl, (setEnabled_idempotent true false true ⟨none⟩).1 (Or.inl rfl)⟩,
    (setEnabled_idempotent true false true ⟨none⟩).2.1 (fun _ => ⟨3, 70⟩)⟩

/-! ### `PageStatUpdate`: counters and the capacity ceiling -/

theorem runUpdates_cons (N : Nat) (p : Option PAGE_STATISTICS) (u : Upd) (us : List Upd) :
    runUpdates N p (u :: us) =
      runUpdates N (PageStatUpdate N p u.qwAddr u.cPageSuccessAdd u.cPageFailAdd) us := rfl

theorem runUpdates_append (N : Nat) (p : Option PAGE_STATISTICS) (us vs : List Upd) :
    runUpdates N p (us ++ vs) = runUpdates N (runUpdates N p us) vs := by
  simp [runUpdates, List.foldl_append]

theorem memMapAdd_idx_le (N idx : Nat) (mm : Nat → MemMapEntry) (a s : Nat)
    (h : idx ≤ N - 1) : (memMapAdd N idx mm a s).1 ≤ N - 1 := by
  unfold memMapAdd
  split_ifs with h1 h2
  · simp only; omega
  · exact h
  · exact h

theorem memMapAdd_idx_ge (N idx : Nat) (mm : Nat → MemMapEntry) (a s : Nat) :
    idx ≤ (memMapAdd N idx mm a s).1 := by
  unfold memMapAdd
  split_ifs with h1 h2
  · simp only; omega
  · exact le_refl _
  · exact le_refl _

/-- At the ceiling the memory map part of the update does nothing at all. -/
theorem memMapAdd_full (N idx : Nat) (mm : Nat → MemMapEntry) (a s : Nat)
    (h : N - 1 ≤ idx) : memMapAdd N idx mm a s = (idx, mm) := by
  unfold memMapAdd
  have : ¬ (s ≠ 0 ∧ idx < N - 1) := by omega
  rw [if_neg this]

theorem runUpdates_counters (N : Nat) (us : List Upd) (ps : PAGE_STATISTICS)
    (hidx : ps.MemMapIdx ≤ N - 1) (hs : ps.cPageSuccess < 2 ^ 64) (hf : ps.cPageFail < 2 ^ 64) :
    ∃ ps1, runUpdates N (some ps) us = some ps1 ∧
      ps1.MemMapIdx ≤ N - 1 ∧ ps.MemMapIdx ≤ ps1.MemMapIdx ∧
      ps1.cPageSuccess = addQ ps.cPageSuccess (sumSuccess us) ∧
      ps1.cPageFail = addQ ps.cPageFail (sumFail us) := by
  induction us generalizing ps with
  | nil =>
    refine ⟨ps, rfl, hidx, le_refl _, ?_, ?_⟩
    · simp only [sumSuccess, addQ, List.map_nil, List.sum_nil]; omega
    · simp only [sumFail, addQ, List.map_nil, List.sum_nil]; omega
  | cons u us ih =>
    rw [runUpdates_cons]
    simp only [PageStatUpdate]
    obtain ⟨ps1, h1, h2, h3, h4, h5⟩ := ih
      { ps with
        qwAddr := u.qwAddr
        cPageSuccess := addQ ps.cPageSuccess u.cPageSuccessAdd
        cPageFail := addQ ps.cPageFail u.cPageFailAdd
        MemMapIdx := (memMapAdd N ps.MemMapIdx ps.MemMap u.qwAddr u.cPageSuccessAdd).1
        MemMap := (memMapAdd N ps.MemMapIdx ps.MemMap u.qwAddr u.cPageSuccessAdd).2
        fUpdate := true }
      (memMapAdd_idx_le N _ _ _ _ hidx) (by simp only [addQ]; omega) (by simp only [addQ]; omega)
    refine ⟨ps1, h1, h2, le_trans (memMapAdd_idx_ge N _ _ _ _) h3, ?_, ?_⟩
    · rw [h4]; simp [sumSuccess, addQ_addQ]
    · rw [h5]; simp [sumFail, addQ_addQ]

/-- The state `PageStatInitialize` returns when the allocation succeeds. -/
theorem PageStatInitialize_ok (tick hThread qwAddrBase qwAddrMax : Nat)
    (szAction : String) (fKMD fMemMap : Bool) :
    ∃ ps0, PageStatInitialize true tick hThread qwAddrBase qwAddrMax szAction fKMD fMemMap
        = some ps0 ∧
      ps0.qwAddr = qwAddrBase ∧ ps0.cPageSuccess = 0 ∧ ps0.cPageFail = 0 ∧
      ps0.MemMapIdx = 0 ∧ ps0.MemMap = fun _ => ⟨0, 0⟩ :=
  ⟨_, rfl, rfl, rfl, rfl, rfl, rfl⟩

/-- C8: on a freshly initialised tracker (with `PAGE_STATISTICS_MEM_MAP_MAX_ENTRY ≥ 1`),
after any sequence of updates `us1` the run count `MemMapIdx` is at most
`PAGE_STATISTICS_MEM_MAP_MAX_ENTRY - 1`; if it equals that ceiling then after any
further updates `us2` it is still the ceiling; and after `us1` as well as after
`us1 ++ us2` the counters `cPageSuccess` and `cPageFail` are the sums (mod 2^64) of
all `cPageSuccessAdd` and `cPageFailAdd` supplied. -/
theorem capacity_ceiling (N : Nat) (hN : 1 ≤ N) (tick hThread qwAddrBase qwAddrMax : Nat)
    (szAction : String) (fKMD fMemMap : Bool) (us1 us2 : List Upd) :
    ∃ ps1 ps2,
      runUpdates N (PageStatInitialize true tick hThread qwAddrBase qwAddrMax szAction fKMD fMemMap)
        us1 = some ps1 ∧
      runUpdates N (PageStatInitialize true tick hThread qwAddrBase qwAddrMax szAction fKMD fMemMap)
        (us1 ++ us2) = some ps2 ∧
      ps1.MemMapIdx ≤ N - 1 ∧ ps2.MemMapIdx ≤ N - 1 ∧
      (ps1.MemMapIdx = N - 1 → ps2.MemMapIdx = N - 1) ∧
      ps1.cPageSuccess = sumSuccess us1 % 2 ^ 64 ∧ ps1.cPageFail = sumFail us1 % 2 ^ 64 ∧
      ps2.cPageSuccess = sumSuccess (us1 ++ us2) % 2 ^ 64 ∧
      ps2.cPageFail = sumFail (us1 ++ us2) % 2 ^ 64 := by
  have _ := hN
  obtain ⟨ps0, hinit, _, hs0, hf0, hi0, _⟩ :=
    PageStatInitialize_ok tick hThread qwAddrBase qwAddrMax szAction fKMD fMemMap
  rw [hinit]
  obtain ⟨ps1, h1, h2, _, h4, h5⟩ := runUpdates_counters N us1 ps0
    (by rw [hi0]; exact Nat.zero_le _) (by rw [hs0]; norm_num) (by rw [hf0]; norm_num)
  rw [hs0] at h4
  rw [hf0] at h5
  obtain ⟨ps2, g1, g2, g3, g4, g5⟩ := runUpdates_counters N us2 ps1 h2
    (by rw [h4]; simp only [addQ]; omega) (by rw [h5]; simp only [addQ]; omega)
  refine ⟨ps1, ps2, h1, ?_, h2, g2, ?_, ?_, ?_, ?_, ?_⟩
  · rw [runUpdates_append, h1, g1]
  · intro h; omega
  · rw [h4]; simp [addQ]
  · rw [h5]; simp [addQ]
  · rw [g4, h4]; simp [addQ, sumSuccess]
  · rw [g5, h5]; simp [addQ, sumFail]

/-- C8 witness: with three map entries the ceiling 2 is reached by two separate
runs; a third separate run is counted but not recorded. -/
theorem capacity_ceiling_witness :
    (1 ≤ 3) ∧
    ∃ ps1 ps2,
      runUpdates 3 (PageStatInitialize true 0 0 0x1000 0xffff "dump" false true)
        [⟨0x2000, 1, 0⟩, ⟨0x4000, 1, 0⟩] = some ps1 ∧
      runUpdates 3 (PageStatInitialize true 0 0 0x1000 0xffff "dump" false true)
        ([⟨0x2000, 1, 0⟩, ⟨0x4000, 1, 0⟩] ++ [⟨0x6000, 1, 2⟩]) = some ps2 ∧
      ps1.MemMapIdx ≤ 3 - 1 ∧ ps2.MemMapIdx ≤ 3 - 1 ∧
      (ps1.MemMapIdx = 3 - 1 → ps2.MemMapIdx = 3 - 1) ∧
      ps1.cPageSuccess = sumSuccess [⟨0x2000, 1, 0⟩, ⟨0x4000, 1, 0⟩] % 2 ^ 64 ∧
      ps1.cPageFail = sumFail [⟨0x2000, 1, 0⟩, ⟨0x4000, 1, 0⟩] % 2 ^ 64 ∧
      ps2.cPageSuccess =
        sumSuccess ([⟨0x2000, 1, 0⟩, ⟨0x4000, 1, 0⟩] ++ [⟨0x6000, 1, 2⟩]) % 2 ^ 64 ∧
      ps2.cPageFail =
        sumFail ([⟨0x2000, 1, 0⟩, ⟨0x4000, 1, 0⟩] ++ [⟨0x6000, 1, 2⟩]) % 2 ^ 64 :=
  ⟨by decide,
    capacity_ceiling 3 (by decide) 0 0 0x1000 0xffff "dump" false true
      [⟨0x2000, 1, 0⟩, ⟨0x4000, 1, 0⟩] [⟨0x6000, 1, 2⟩]⟩

/-! ### `PageStatUpdate`: the memory map -/

theorem memMapAdd_zero (N idx : Nat) (mm : Nat → MemMapEntry) (a : Nat) :
    memMapAdd N idx mm a 0 = (idx, mm) := by
  simp [memMapAdd]

theorem memMapAdd_extend (N idx : Nat) (mm : Nat → MemMapEntry) (a s : Nat)
    (hs : s ≠ 0) (hlt : idx < N - 1) (hidx : idx ≠ 0)
    (heq : extentStart a s = entryEnd (mm idx)) :
    memMapAdd N idx mm a s =
      (idx, Function.update mm idx
        ⟨(mm idx).qwAddrBase, ((mm idx).cPages + s % 2 ^ 32) % 2 ^ 32⟩) := by
  unfold memMapAdd
  rw [if_pos ⟨hs, hlt⟩, if_neg (by simp [hidx, heq])]

theorem memMapAdd_append (N idx : Nat) (mm : Nat → MemMapEntry) (a s : Nat)
    (hs : s ≠ 0) (hlt : idx < N - 1)
    (hnew : idx = 0 ∨ extentStart a s ≠ entryEnd (mm idx)) :
    memMapAdd N idx mm a s =
      (idx + 1, Function.update mm (idx + 1)
        ⟨extentStart a s, ((mm (idx + 1)).cPages + s % 2 ^ 32) % 2 ^ 32⟩) := by
  unfold memMapAdd
  rw [if_pos ⟨hs, hlt⟩, if_pos hnew]
  simp [Function.update_same, Function.update_idem]

theorem PageStatUpdate_some (N : Nat) (ps : PAGE_STATISTICS) (a s f : Nat) :
    PageStatUpdate N (some ps) a s f =
      some
        { ps with
          qwAddr := a
          cPageSuccess := addQ ps.cPageSuccess s
          cPageFail := addQ ps.cPageFail f
          MemMapIdx := (memMapAdd N ps.MemMapIdx ps.MemMap a s).1
          MemMap := (memMapAdd N ps.MemMapIdx ps.MemMap a s).2
          fUpdate := true } := rfl

/-- The end of an extended entry is the address of the update that extended it. -/
theorem entryEnd_extend (b S a1 s : Nat) (ha1 : a1 < 2 ^ 64)
    (h : extentStart a1 s = entryEnd ⟨b, S⟩) : entryEnd ⟨b, S + s⟩ = a1 := by
  simp only [extentStart, entryEnd, subQ, addQ, shl12] at *
  omega

theorem entryEnd_new (a s : Nat) (ha : a < 2 ^ 64) :
    entryEnd ⟨extentStart a s, s⟩ = a := by
  simp only [extentStart, entryEnd, subQ, addQ, shl12]
  omega

/-- A contiguous sequence of updates that continues the last run only extends it. -/
theorem contig_extend (N j : Nat) (hj : j ≠ 0) (hjN : j < N - 1) (us : List Upd) :
    ∀ (ps : PAGE_STATISTICS) (b S : Nat), ps.MemMapIdx = j → ps.MemMap j = ⟨b, S⟩ →
      Contig (entryEnd ⟨b, S⟩) us → S + sumSuccess us < 2 ^ 32 →
      ps.cPageSuccess < 2 ^ 64 → ps.cPageFail < 2 ^ 64 →
      ∃ ps1, runUpdates N (some ps) us = some ps1 ∧ ps1.MemMapIdx = j ∧
        ps1.MemMap j = ⟨b, S + sumSuccess us⟩ ∧ (∀ i, i ≠ j → ps1.MemMap i = ps.MemMap i) ∧
        ps1.cPageSuccess = addQ ps.cPageSuccess (sumSuccess us) ∧
        ps1.cPageFail = addQ ps.cPageFail (sumFail us) := by
  induction us with
  | nil =>
    intro ps b S hidx hmm _ _ hcs hcf
    refine ⟨ps, rfl, hidx, ?_, fun _ _ => rfl, ?_, ?_⟩
    · simp [hmm, sumSuccess]
    · simp only [sumSuccess, addQ, List.map_nil, List.sum_nil]; omega
    · simp only [sumFail, addQ, List.map_nil, List.sum_nil]; omega
  | cons u us ih =>
    intro ps b S hidx hmm hc hsum hcs hcf
    obtain ⟨hs, ha, hstart, hrest⟩ := hc
    have hsum2 : S + u.cPageSuccessAdd + sumSuccess us < 2 ^ 32 := by
      simp only [sumSuccess, List.map_cons, List.sum_cons] at hsum ⊢; omega
    have hadd : memMapAdd N ps.MemMapIdx ps.MemMap u.qwAddr u.cPageSuccessAdd =
        (j, Function.update ps.MemMap j ⟨b, S + u.cPageSuccessAdd⟩) := by
      rw [hidx, memMapAdd_extend N j ps.MemMap _ _ hs hjN hj (by rw [hmm]; exact hstart), hmm]
      have : (S + u.cPageSuccessAdd % 2 ^ 32) % 2 ^ 32 = S + u.cPageSuccessAdd := by omega
      simp only [this]
    have hend : entryEnd ⟨b, S + u.cPageSuccessAdd⟩ = u.qwAddr :=
      entryEnd_extend b S u.qwAddr u.cPageSuccessAdd ha hstart
    rw [runUpdates_cons, PageStatUpdate_some, hadd]
    obtain ⟨ps1, h1, h2, h3, h4, h5, h6⟩ := ih
      { ps with
        qwAddr := u.qwAddr
        cPageSuccess := addQ ps.cPageSuccess u.cPageSuccessAdd
        cPageFail := addQ ps.cPageFail u.cPageFailAdd
        MemMapIdx := j
        MemMap := Function.update ps.MemMap j ⟨b, S + u.cPageSuccessAdd⟩
        fUpdate := true }
      b (S + u.cPageSuccessAdd) rfl (by simp) (by rw [hend]; exact hrest) hsum2
      (by simp only [addQ]; omega) (by simp only [addQ]; omega)
    refine ⟨ps1, h1, h2, ?_, ?_, ?_, ?_⟩
    · rw [h3]; simp [sumSuccess, Nat.add_assoc]
    · intro i hi; rw [h4 i hi]; simp [Function.update_noteq hi]
    · rw [h5]; simp [sumSuccess, addQ_addQ]
    · rw [h6]; simp [sumFail, addQ_addQ]

/-- A contiguous sequence of updates that does not continue the last run (or meets
an empty map) appends one run and then extends it. -/
theorem contig_run (N j : Nat) (hjN : j + 1 < N - 1) (ps : PAGE_STATISTICS)
    (hidx : ps.MemMapIdx = j) (u : Upd) (us : List Upd)
    (hc : Contig (extentStart u.qwAddr u.cPageSuccessAdd) (u :: us))
    (hnew : j = 0 ∨ extentStart u.qwAddr u.cPageSuccessAdd ≠ entryEnd (ps.MemMap j))
    (hz : (ps.MemMap (j + 1)).cPages = 0) (hsum : sumSuccess (u :: us) < 2 ^ 32) :
    ∃ ps1, runUpdates N (some ps) (u :: us) = some ps1 ∧ ps1.MemMapIdx = j + 1 ∧
      ps1.MemMap (j + 1) = ⟨extentStart u.qwAddr u.cPageSuccessAdd, sumSuccess (u :: us)⟩ ∧
      (∀ i, i ≠ j + 1 → ps1.MemMap i = ps.MemMap i) ∧
      ps1.cPageSuccess = addQ ps.cPageSuccess (sumSuccess (u :: us)) ∧
      ps1.cPageFail = addQ ps.cPageFail (sumFail (u :: us)) := by
  obtain ⟨hs, ha, _, hrest⟩ := hc
  have hsum2 : u.cPageSuccessAdd + sumSuccess us < 2 ^ 32 := by
    simp only [sumSuccess, List.map_cons, List.sum_cons] at hsum ⊢; omega
  have hadd : memMapAdd N ps.MemMapIdx ps.MemMap u.qwAddr u.cPageSuccessAdd =
      (j + 1, Function.update ps.MemMap (j + 1)
        ⟨extentStart u.qwAddr u.cPageSuccessAdd, u.cPageSuccessAdd⟩) := by
    rw [hidx, memMapAdd_append N j ps.MemMap _ _ hs (by omega) hnew, hz]
    have : (0 + u.cPageSuccessAdd % 2 ^ 32) % 2 ^ 32 = u.cPageSuccessAdd := by omega
    simp only [this]
  rw [runUpdates_cons, PageStatUpdate_some, hadd]
  obtain ⟨ps1, h1, h2, h3, h4, h5, h6⟩ := contig_extend N (j + 1) (by omega) hjN us
    { ps with
      qwAddr := u.qwAddr
      cPageSuccess := addQ ps.cPageSuccess u.cPageSuccessAdd
      cPageFail := addQ ps.cPageFail u.cPageFailAdd
      MemMapIdx := j + 1
      MemMap := Function.update ps.MemMap (j + 1)
        ⟨extentStart u.qwAddr u.cPageSuccessAdd, u.cPageSuccessAdd⟩
      fUpdate := true }
    (extentStart u.qwAddr u.cPageSuccessAdd) u.cPageSuccessAdd rfl (by simp)
    (by rw [entryEnd_new _ _ ha]; exact hrest) hsum2
    (by simp only [addQ]; omega) (by simp only [addQ]; omega)
  refine ⟨ps1, h1, h2, ?_, ?_, ?_, ?_⟩
  · rw [h3]; simp [sumSuccess]
  · intro i hi; rw [h4 i hi]; simp [Function.update_noteq hi]
  · rw [h5]; simp [sumSuccess, addQ_addQ]
  · rw [h6]; simp [sumFail, addQ_addQ]

/-- C6: on a freshly initialised tracker with base `B` (and at least three map
entries), a non-empty sequence of updates, each reporting at least one successfully
read page, the first extent starting at `B` and every extent starting where the
previous one ended, with fewer than 2^32 pages in all, leaves exactly one run
`{B, sum of the page counts}` in the memory map. -/
theorem coalesce_contiguous (N : Nat) (hN : 3 ≤ N) (tick hThread B qwAddrMax : Nat)
    (szAction : String) (fKMD fMemMap : Bool) (us : List Upd) (hne : us ≠ [])
    (hc : Contig B us) (hsum : sumSuccess us < 2 ^ 32) :
    (runUpdates N (PageStatInitialize true tick hThread B qwAddrMax szAction fKMD fMemMap)
      us).map memMapRuns = some [⟨B, sumSuccess us⟩] := by
  obtain ⟨ps0, hinit, _, _, _, hi0, hm0⟩ :=
    PageStatInitialize_ok tick hThread B qwAddrMax szAction fKMD fMemMap
  rw [hinit]
  cases us with
  | nil => exact absurd rfl hne
  | cons u us =>
    have hB : extentStart u.qwAddr u.cPageSuccessAdd = B := hc.2.2.1
    obtain ⟨ps1, h1, h2, h3, _, _, _⟩ := contig_run N 0 (by omega) ps0 hi0 u us
      (by rw [hB]; exact hc) (Or.inl rfl) (by rw [hm0]) hsum
    rw [h1]
    simp only [Nat.zero_add] at h2 h3
    simp only [Option.map_some', memMapRuns, h2, List.range_succ, List.range_zero,
      List.nil_append, List.map_cons, List.map_nil, Nat.zero_add, h3, hB]

/-- C6 witness: base 0x1000, sixteen single-page updates, capacity 2048: one run
`{0x1000, 16}`. -/
theorem coalesce_contiguous_witness :
    (3 ≤ 2048 ∧ pageUpdates 0x1000 16 (fun _ => false) ≠ [] ∧
      Contig 0x1000 (pageUpdates 0x1000 16 (fun _ => false)) ∧
      sumSuccess (pageUpdates 0x1000 16 (fun _ => false)) < 2 ^ 32) ∧
    (runUpdates 2048
        (PageStatInitialize true 0 0 0x1000 (0x1000 + 16 * 4096 - 1) "dump" false true)
        (pageUpdates 0x1000 16 (fun _ => false))).map memMapRuns = some [⟨0x1000, 16⟩] :=
  ⟨⟨by decide, by decide, by decide, by decide⟩,
    coalesce_contiguous 2048 (by decide) 0 0 0x1000 (0x1000 + 16 * 4096 - 1) "dump" false true
      (pageUpdates 0x1000 16 (fun _ => false)) (by decide) (by decide) (by decide)⟩

/-- C7: sixteen per-page updates in address order over the 16 pages from 0x1000
(pages counted from 0), one page `p` in the middle (`1 ≤ p ≤ 14`, in particular
page 8) reported as failed and every other page as read, on a freshly initialised
tracker (with at least four map entries): exactly two runs, `{0x1000, p}` for the
pages before `p` and `{0x1000 + (p + 1) * 4096, 15 - p}` for the pages after it,
and `cPageSuccess = 15`, `cPageFail = 1`. -/
theorem coalesce_gap (N : Nat) (hN : 4 ≤ N) (p : Nat) (hp1 : 1 ≤ p) (hp2 : p ≤ 14)
    (tick hThread : Nat) (szAction : String) (fKMD fMemMap : Bool) :
    (runUpdates N
        (PageStatInitialize true tick hThread 0x1000 (0x1000 + 16 * 4096 - 1)
          szAction fKMD fMemMap)
        (pageUpdates 0x1000 16 (fun i => decide (i = p)))).map
      (fun ps => (memMapRuns ps, ps.cPageSuccess, ps.cPageFail)) =
      some ([⟨0x1000, p⟩, ⟨0x1000 + (p + 1) * 4096, 15 - p⟩], 15, 1) := by
  obtain ⟨ps0, hinit, _, hs0, hf0, hi0, hm0⟩ :=
    PageStatInitialize_ok tick hThread 0x1000 (0x1000 + 16 * 4096 - 1) szAction fKMD fMemMap
  rw [hinit]
  -- the updates: pages before `p`, the failed page, pages after `p`
  have hsplit : pageUpdates 0x1000 16 (fun i => decide (i = p)) =
      (⟨0x2000, 1, 0⟩ :: pageUpdates 0x2000 (p - 1) (fun _ => false)) ++
        (⟨0x1000 + (p + 1) * 4096, 0, 1⟩ :: ⟨0x1000 + (p + 2) * 4096, 1, 0⟩ ::
          pageUpdates (0x1000 + (p + 2) * 4096) (14 - p) (fun _ => false)) := by
    interval_cases p <;> decide
  have hcA : Contig (extentStart 0x2000 1)
      (⟨0x2000, 1, 0⟩ :: pageUpdates 0x2000 (p - 1) (fun _ => false)) := by
    interval_cases p <;> decide
  have hsA : sumSuccess (⟨0x2000, 1, 0⟩ :: pageUpdates 0x2000 (p - 1) (fun _ => false)) = p := by
    interval_cases p <;> decide
  have hfA : sumFail (⟨0x2000, 1, 0⟩ :: pageUpdates 0x2000 (p - 1) (fun _ => false)) = 0 := by
    interval_cases p <;> decide
  have hcB : Contig (extentStart (0x1000 + (p + 2) * 4096) 1)
      (⟨0x1000 + (p + 2) * 4096, 1, 0⟩ ::
        pageUpdates (0x1000 + (p + 2) * 4096) (14 - p) (fun _ => false)) := by
    interval_cases p <;> decide
  have hsB : sumSuccess (⟨0x1000 + (p + 2) * 4096, 1, 0⟩ ::
      pageUpdates (0x1000 + (p + 2) * 4096) (14 - p) (fun _ => false)) = 15 - p := by
    interval_cases p <;> decide
  have hfB : sumFail (⟨0x1000 + (p + 2) * 4096, 1, 0⟩ ::
      pageUpdates (0x1000 + (p + 2) * 4096) (14 - p) (fun _ => false)) = 0 := by
    interval_cases p <;> decide
  have hstA : extentStart 0x2000 1 = 0x1000 := by decide
  have hstB : extentStart (0x1000 + (p + 2) * 4096) 1 = 0x1000 + (p + 1) * 4096 := by
    interval_cases p <;> decide
  have hgap : 0x1000 + (p + 1) * 4096 ≠ entryEnd ⟨0x1000, p⟩ := by
    interval_cases p <;> decide
  rw [hsplit, runUpdates_append]
  -- first run
  obtain ⟨ps1, h1, h1i, h1m, h1o, h1s, h1f⟩ := contig_run N 0 (by omega) ps0 hi0
    ⟨0x2000, 1, 0⟩ (pageUpdates 0x2000 (p - 1) (fun _ => false))
    hcA (Or.inl rfl) (by rw [hm0]) (by rw [hsA]; omega)
  simp only [hstA, hsA, Nat.zero_add] at h1i h1m h1o h1s
  rw [hfA] at h1f
  -- the failed page
  obtain ⟨psF, hF, hFi, hFm, hFs, hFf⟩ : ∃ psF,
      PageStatUpdate N (some ps1) (0x1000 + (p + 1) * 4096) 0 1 = some psF ∧
      psF.MemMapIdx = ps1.MemMapIdx ∧ psF.MemMap = ps1.MemMap ∧
      psF.cPageSuccess = addQ ps1.cPageSuccess 0 ∧ psF.cPageFail = addQ ps1.cPageFail 1 := by
    rw [PageStatUpdate_some, memMapAdd_zero]; exact ⟨_, rfl, rfl, rfl, rfl, rfl⟩
  rw [h1, runUpdates_cons, hF]
  -- second run
  obtain ⟨ps2, h2, h2i, h2m, h2o, h2s, h2f⟩ := contig_run N 1 (by omega) psF
    (by rw [hFi]; exact h1i) ⟨0x1000 + (p + 2) * 4096, 1, 0⟩
    (pageUpdates (0x1000 + (p + 2) * 4096) (14 - p) (fun _ => false))
    hcB (Or.inr (by rw [hFm, h1m, hstB]; exact hgap))
    (by rw [hFm, h1o 2 (by decide), hm0]) (by rw [hsB]; omega)
  simp only [hstB, hsB] at h2m h2s
  rw [hfB] at h2f
  rw [h2]
  have e1 : ps2.MemMap 1 = ⟨0x1000, p⟩ := by
    rw [h2o 1 (by decide), hFm, h1m]
  have e3 : ps2.cPageSuccess = 15 := by
    rw [h2s, hFs, h1s, hs0]; simp only [addQ]; omega
  have e4 : ps2.cPageFail = 1 := by
    rw [h2f, hFf, h1f, hf0]; simp only [addQ]; omega
  simp only [Option.map_some', memMapRuns, h2i, e3, e4, List.range_succ, List.range_zero,
    List.nil_append, List.map_cons, List.map_nil, List.map_append, List.cons_append,
    Nat.zero_add, e1, h2m]

/-- C7 witness: page 8 failed, with the capacity 2048: runs `{0x1000, 8}` and
`{0xa000, 7}`. -/
theorem coalesce_gap_witness :
    (4 ≤ 2048 ∧ 1 ≤ 8 ∧ 8 ≤ 14) ∧
    (runUpdates 2048
        (PageStatInitialize true 0 0 0x1000 (0x1000 + 16 * 4096 - 1) "dump" false true)
        (pageUpdates 0x1000 16 (fun i => decide (i = 8)))).map
      (fun ps => (memMapRuns ps, ps.cPageSuccess, ps.cPageFail)) =
      some ([⟨0x1000, 8⟩, ⟨0xa000, 7⟩], 15, 1) :=
  ⟨⟨by decide, by decide, by decide⟩,
    coalesce_gap 2048 (by decide) 8 (by decide) (by decide) 0 0 "dump" false true⟩

/-- C9 counterexample: with the map at its ceiling (2047 runs for 2048 entries) an
update of one page that starts where the last run ends leaves that run at 1 page
instead of 2: the run is not extended. -/
theorem extension_blocked_at_ceiling :
    (fullMapState.MemMapIdx ≠ 0 ∧ (1 : Nat) ≠ 0 ∧
      extentStart 0xfff000 1 = entryEnd (fullMapState.MemMap fullMapState.MemMapIdx)) ∧
    (PageStatUpdate 2048 (some fullMapState) 0xfff000 1 0).map
        (fun q => (q.MemMapIdx, (q.MemMap q.MemMapIdx).cPages)) = some (2047, 1) ∧
    (fullMapState.MemMap fullMapState.MemMapIdx).cPages + 1 = 2 := by
  decide

/-- C9 (amended): for a tracker with a non-empty memory map and an update with
`cPageSuccessAdd ≠ 0` whose extent start equals the end of the last run, the update
keeps `MemMapIdx` and every other entry and the base of the last run; while the map
is below its ceiling (`MemMapIdx < PAGE_STATISTICS_MEM_MAP_MAX_ENTRY - 1`) the last
run's `cPages` becomes `(cPages + cPageSuccessAdd) % 2^32`, which is
`cPages + cPageSuccessAdd` when that is below 2^32; at the ceiling the whole map is
unchanged. -/
theorem extension_rule (N : Nat) (hN : 1 ≤ N) (ps : PAGE_STATISTICS) (a s f : Nat)
    (hne : ps.MemMapIdx ≠ 0) (hs : s ≠ 0)
    (hstart : extentStart a s = entryEnd (ps.MemMap ps.MemMapIdx)) :
    ∃ ps1, PageStatUpdate N (some ps) a s f = some ps1 ∧
      ps1.MemMapIdx = ps.MemMapIdx ∧
      (∀ i, i ≠ ps.MemMapIdx → ps1.MemMap i = ps.MemMap i) ∧
      (ps1.MemMap ps.MemMapIdx).qwAddrBase = (ps.MemMap ps.MemMapIdx).qwAddrBase ∧
      (ps.MemMapIdx < N - 1 →
        (ps1.MemMap ps.MemMapIdx).cPages = ((ps.MemMap ps.MemMapIdx).cPages + s) % 2 ^ 32 ∧
        ((ps.MemMap ps.MemMapIdx).cPages + s < 2 ^ 32 →
          (ps1.MemMap ps.MemMapIdx).cPages = (ps.MemMap ps.MemMapIdx).cPages + s)) ∧
      (N - 1 ≤ ps.MemMapIdx → ps1.MemMap = ps.MemMap) := by
  have _ := hN
  rw [PageStatUpdate_some]
  by_cases hlt : ps.MemMapIdx < N - 1
  · rw [memMapAdd_extend N _ _ _ _ hs hlt hne hstart]
    refine ⟨_, rfl, rfl, ?_, ?_, ?_, ?_⟩
    · intro i hi; simp [Function.update_noteq hi]
    · simp
    · intro _
      refine ⟨?_, ?_⟩
      · simp only [Function.update_same]; omega
      · intro h; simp only [Function.update_same]; omega
    · intro h; omega
  · rw [memMapAdd_full N _ _ _ _ (by omega)]
    refine ⟨_, rfl, rfl, fun _ _ => rfl, rfl, ?_, fun _ => rfl⟩
    intro h; exact absurd h hlt

/-- C9 witness: one run `{0x1000, 3}` below the ceiling, continued by two pages up
to 0x6000. -/
theorem extension_rule_witness :
    (1 ≤ 2048 ∧
      ({ fullMapState with MemMapIdx := 1, MemMap := fun _ => ⟨0x1000, 3⟩ } :
        PAGE_STATISTICS).MemMapIdx ≠ 0 ∧ (2 : Nat) ≠ 0 ∧
      extentStart 0x6000 2 = entryEnd (({ fullMapState with
        MemMapIdx := 1, MemMap := fun _ => ⟨0x1000, 3⟩ } : PAGE_STATISTICS).MemMap 1)) ∧
    ∃ ps1, PageStatUpdate 2048
        (some { fullMapState with MemMapIdx := 1, MemMap := fun _ => ⟨0x1000, 3⟩ }) 0x6000 2 0
          = some ps1 ∧
      ps1.MemMapIdx = 1 ∧
      (∀ i, i ≠ 1 → ps1.MemMap i = ⟨0x1000, 3⟩) ∧
      (ps1.MemMap 1).qwAddrBase = 0x1000 ∧
      (1 < 2048 - 1 →
        (ps1.MemMap 1).cPages = (3 + 2) % 2 ^ 32 ∧
        (3 + 2 < 2 ^ 32 → (ps1.MemMap 1).cPages = 3 + 2)) ∧
      (2048 - 1 ≤ 1 → ps1.MemMap = fun _ => ⟨0x1000, 3⟩) :=
  ⟨⟨by decide, by decide, by decide, by decide⟩,
    extension_rule 2048 (by decide)
      { fullMapState with MemMapIdx := 1, MemMap := fun _ => ⟨0x1000, 3⟩ } 0x6000 2 0
      (by decide) (by decide) (by decide)⟩

/-! ### `PageStatUpdate`: order of the recorded runs -/

/-- C10 counterexample: two updates in descending address order leave the runs
`{0x5000, 1}`, `{0x2000, 1}`: the second run lies below the first. -/
theorem runs_unordered_descending :
    (runUpdates 2048 (PageStatInitialize true 0 0 0x1000 0xffff "dump" false true)
        [⟨0x6000, 1, 0⟩, ⟨0x3000, 1, 0⟩]).map
      (fun ps => (memMapRuns ps, decide (List.Pairwise Before (memMapRuns ps)))) =
      some ([⟨0x5000, 1⟩, ⟨0x2000, 1⟩], false) ∧
    ¬ Before ⟨0x5000, 1⟩ ⟨0x2000, 1⟩ := by
  decide

theorem extentStart_asc (a0 a s : Nat) (h : a0 + s * 4096 ≤ a) (ha : a < 2 ^ 64) :
    extentStart a s = a - s * 4096 := by
  simp only [extentStart, subQ, shl12]; omega

theorem entryEnd_small (e : MemMapEntry) (A : Nat) (hc : e.cPages < 2 ^ 32)
    (h : e.qwAddrBase + e.cPages * 4096 ≤ A) (hA : A < 2 ^ 64) :
    entryEnd e = e.qwAddrBase + e.cPages * 4096 := by
  simp only [entryEnd, addQ, shl12]; omega

/-- One update in ascending order keeps the invariant. -/
theorem MapInv_step (N : Nat) (ps : PAGE_STATISTICS) (hinv : MapInv ps) (a s f : Nat)
    (hasc : ps.qwAddr + s * 4096 ≤ a) (ha : a < 2 ^ 64) :
    ∃ ps1, PageStatUpdate N (some ps) a s f = some ps1 ∧ ps1.qwAddr = a ∧ MapInv ps1 := by
  rw [PageStatUpdate_some]
  refine ⟨_, rfl, rfl, ?_⟩
  have hle : ps.qwAddr ≤ a := by omega
  by_cases hg : s ≠ 0 ∧ ps.MemMapIdx < N - 1
  · obtain ⟨hs, hlt⟩ := hg
    have hst : extentStart a s = a - s * 4096 := extentStart_asc ps.qwAddr a s hasc ha
    by_cases hnew : ps.MemMapIdx = 0 ∨ extentStart a s ≠ entryEnd (ps.MemMap ps.MemMapIdx)
    · rw [memMapAdd_append N _ _ _ _ hs hlt hnew, hinv.above _ (Nat.lt_succ_self _), hst]
      have hcp : (0 + s % 2 ^ 32) % 2 ^ 32 ≤ s := by omega
      have hcp2 : (0 + s % 2 ^ 32) % 2 ^ 32 < 2 ^ 32 := by omega
      constructor
      · exact ha
      · intro i hi
        have hi2 : i ≠ ps.MemMapIdx + 1 := by simp only at hi; omega
        simp only [Function.update_noteq hi2]
        exact hinv.above i (by simp only at hi; omega)
      · intro i h1 h2
        simp only at h2 ⊢
        by_cases hi : i = ps.MemMapIdx + 1
        · subst hi
          simp only [Function.update_same]
          refine ⟨hcp2, by omega, ?_⟩
          have : (0 + s % 2 ^ 32) % 2 ^ 32 * 4096 ≤ s * 4096 := Nat.mul_le_mul_right _ hcp
          omega
        · simp only [Function.update_noteq hi]
          obtain ⟨b1, b2, b3⟩ := hinv.below i h1 (by omega)
          exact ⟨b1, by omega, by omega⟩
      · intro i j h1 h2 h3
        simp only at h3 ⊢
        have hi : i ≠ ps.MemMapIdx + 1 := by omega
        simp only [Function.update_noteq hi]
        by_cases hj : j = ps.MemMapIdx + 1
        · subst hj
          simp only [Function.update_same]
          obtain ⟨_, b2, b3⟩ := hinv.below i h1 (by omega)
          exact ⟨by simp only; omega, by simp only; omega⟩
        · simp only [Function.update_noteq hj]
          exact hinv.ordered i j h1 h2 (by omega)
    · have hidx : ps.MemMapIdx ≠ 0 := fun h => hnew (Or.inl h)
      have heq : extentStart a s = entryEnd (ps.MemMap ps.MemMapIdx) := by
        by_contra h; exact hnew (Or.inr h)
      obtain ⟨c1, c2, c3⟩ := hinv.below ps.MemMapIdx (by omega) (le_refl _)
      rw [hst, entryEnd_small _ _ c1 c3 hinv.addr_lt] at heq
      rw [memMapAdd_extend N _ _ _ _ hs hlt hidx
        (by rw [hst, entryEnd_small _ _ c1 c3 hinv.addr_lt]; exact heq)]
      have hcp : ((ps.MemMap ps.MemMapIdx).cPages + s % 2 ^ 32) % 2 ^ 32 ≤
          (ps.MemMap ps.MemMapIdx).cPages + s := by omega
      have hcp2 : ((ps.MemMap ps.MemMapIdx).cPages + s % 2 ^ 32) % 2 ^ 32 < 2 ^ 32 := by omega
      constructor
      · exact ha
      · intro i hi
        have hi2 : i ≠ ps.MemMapIdx := by simp only at hi; omega
        simp only [Function.update_noteq hi2]
        exact hinv.above i hi
      · intro i h1 h2
        simp only at h2 ⊢
        by_cases hi : i = ps.MemMapIdx
        · subst hi
          simp only [Function.update_same]
          refine ⟨hcp2, by omega, ?_⟩
          have := Nat.mul_le_mul_right 4096 hcp
          omega
        · simp only [Function.update_noteq hi]
          obtain ⟨b1, b2, b3⟩ := hinv.below i h1 h2
          exact ⟨b1, by omega, by omega⟩
      · intro i j h1 h2 h3
        simp only at h3 ⊢
        have hi : i ≠ ps.MemMapIdx := by omega
        simp only [Function.update_noteq hi]
        by_cases hj : j = ps.MemMapIdx
        · subst hj
          simp only [Function.update_same]
          exact hinv.ordered i _ h1 h2 (le_refl _)
        · simp only [Function.update_noteq hj]
          exact hinv.ordered i j h1 h2 h3
  · have hadd : memMapAdd N ps.MemMapIdx ps.MemMap a s = (ps.MemMapIdx, ps.MemMap) := by
      unfold memMapAdd; rw [if_neg hg]
    rw [hadd]
    constructor
    · exact ha
    · exact hinv.above
    · intro i h1 h2
      obtain ⟨b1, b2, b3⟩ := hinv.below i h1 h2
      exact ⟨b1, by simp only; omega, by simp only; omega⟩
    · exact hinv.ordered

theorem MapInv_run (N : Nat) (us : List Upd) :
    ∀ ps, MapInv ps → Ascending ps.qwAddr us →
      ∃ ps1, runUpdates N (some ps) us = some ps1 ∧ MapInv ps1 := by
  induction us with
  | nil => intro ps hinv _; exact ⟨ps, rfl, hinv⟩
  | cons u us ih =>
    intro ps hinv hasc
    obtain ⟨h1, h2, h3⟩ := hasc
    obtain ⟨ps1, e1, e2, e3⟩ := MapInv_step N ps hinv u.qwAddr u.cPageSuccessAdd u.cPageFailAdd h1 h2
    obtain ⟨ps2, g1, g2⟩ := ih ps1 e3 (by rw [e2]; exact h3)
    exact ⟨ps2, by rw [runUpdates_cons, e1, g1], g2⟩

theorem MapInv_pairwise (ps : PAGE_STATISTICS) (hinv : MapInv ps) :
    List.Pairwise Before (memMapRuns ps) := by
  unfold memMapRuns
  rw [List.pairwise_map]
  refine List.Pairwise.imp_of_mem ?_ (List.pairwise_lt_range ps.MemMapIdx)
  intro i j _ hj hij
  exact hinv.ordered (i + 1) (j + 1) (by omega) (by omega) (by have := List.mem_range.mp hj; omega)

/-- C10 (amended): in every state reached from `PageStatInitialize` (base a
`QWORD`) by updates made in ascending address order (each address a `QWORD` at least
`cPageSuccessAdd * 4096` above the previous current address), earlier recorded runs
lie before later ones: bases strictly increase and a run ends at or before the base
of every later run; in particular this holds for consecutive runs. -/
theorem runs_ordered (N : Nat) (hN : 1 ≤ N) (tick hThread B qwAddrMax : Nat)
    (szAction : String) (fKMD fMemMap : Bool) (hB : B < 2 ^ 64) (us : List Upd)
    (hasc : Ascending B us) :
    ∃ ps, runUpdates N (PageStatInitialize true tick hThread B qwAddrMax szAction fKMD fMemMap)
        us = some ps ∧
      List.Pairwise Before (memMapRuns ps) ∧ List.Chain' Before (memMapRuns ps) := by
  have _ := hN
  obtain ⟨ps0, hinit, ha0, _, _, hi0, hm0⟩ :=
    PageStatInitialize_ok tick hThread B qwAddrMax szAction fKMD fMemMap
  rw [hinit]
  have hinv0 : MapInv ps0 := by
    constructor
    · rw [ha0]; exact hB
    · intro i _; rw [hm0]
    · intro i h1 h2; omega
    · intro i j h1 h2 h3; omega
  obtain ⟨ps1, h1, h2⟩ := MapInv_run N us ps0 hinv0 (by rw [ha0]; exact hasc)
  exact ⟨ps1, h1, MapInv_pairwise ps1 h2, (MapInv_pairwise ps1 h2).chain'⟩

/-- C10 witness: the sixteen per-page updates with page 8 failed are in ascending
order. -/
theorem runs_ordered_witness :
    (1 ≤ 2048 ∧ 0x1000 < 2 ^ 64 ∧
      Ascending 0x1000 (pageUpdates 0x1000 16 (fun i => decide (i = 8)))) ∧
    ∃ ps, runUpdates 2048
        (PageStatInitialize true 0 0 0x1000 (0x1000 + 16 * 4096 - 1) "dump" false true)
        (pageUpdates 0x1000 16 (fun i => decide (i = 8))) = some ps ∧
      List.Pairwise Before (memMapRuns ps) ∧ List.Chain' Before (memMapRuns ps) :=
  ⟨⟨by decide, by decide, by decide⟩,
    runs_ordered 2048 (by decide) 0 0 0x1000 (0x1000 + 16 * 4096 - 1) "dump" false true
      (by decide) (pageUpdates 0x1000 16 (fun i => decide (i = 8))) (by decide)⟩

/-! ### `Statistics_CallToString`: the reported size -/

theorem fmtName_length (name : List Char) : (fmtName name).length = 40 := by
  simp only [fmtName, List.length_append, List.length_replicate, List.length_take]
  omega

theorem padLeft_length (w : Nat) (s : List Char) (h : s.length ≤ w) :
    (padLeft w s).length = w := by
  simp only [padLeft, List.length_append, List.length_replicate]
  omega

theorem toDigits_length_le (n e : Nat) (he : 0 < e) (h : n < 10 ^ e) :
    (Nat.toDigits 10 n).length ≤ e :=
  Nat.toDigitsCore_length 10 (by decide) (n + 1) n e h he

theorem fmtInt_length_neg (v : Int) (hv : v < 0) :
    (fmtInt v).length = (Nat.toDigits 10 v.natAbs).length + 1 := by
  simp only [fmtInt, if_pos hv, List.length_cons]

theorem fmtInt_length_nonneg (v : Int) (hv : ¬ v < 0) :
    (fmtInt v).length = (Nat.toDigits 10 v.toNat).length := by
  simp only [fmtInt, if_neg hv]

theorem fmtInt32_length (x : Nat) (h : fits8 x) :
    (fmtInt (asInt32 x)).length ≤ 8 := by
  obtain ⟨h1, h2⟩ := h
  by_cases hv : asInt32 x < 0
  · rw [fmtInt_length_neg _ hv]
    have : (asInt32 x).natAbs < 10 ^ 7 := by omega
    have := toDigits_length_le _ 7 (by decide) this
    omega
  · rw [fmtInt_length_nonneg _ hv]
    have : (asInt32 x).toNat < 10 ^ 8 := by omega
    exact toDigits_length_le _ 8 (by decide) this

theorem fmtInt64_length (x : Nat) (h : fits16 x) :
    (fmtInt (asInt64 x)).length ≤ 16 := by
  obtain ⟨h1, h2⟩ := h
  by_cases hv : asInt64 x < 0
  · rw [fmtInt_length_neg _ hv]
    have : (asInt64 x).natAbs < 10 ^ 15 := by omega
    have := toDigits_length_le _ 15 (by decide) this
    omega
  · rw [fmtInt_length_nonneg _ hv]
    have : (asInt64 x).toNat < 10 ^ 16 := by omega
    exact toDigits_length_le _ 16 (by decide) this

/-- A row whose numbers fit their columns is 79 bytes long. -/
theorem fmtRow_length (name : List Char) (calls avg total : Nat)
    (h1 : fits8 calls) (h2 : fits8 avg) (h3 : fits16 total) :
    (fmtRow name calls avg total).length = 79 := by
  simp only [fmtRow, List.length_append, fmtName_length,
    padLeft_length 8 _ (fmtInt32_length calls h1), padLeft_length 8 _ (fmtInt32_length avg h2),
    padLeft_length 16 _ (fmtInt64_length total h3), List.length_cons, List.length_nil]

/-- A count that `%8i` reads as -1 (all 32 bits set) still gives a 79-byte row. -/
theorem fmtRow_minus_one (name : List Char) :
    (fmtRow name 0xffffffff 0 0).length = 79 :=
  fmtRow_length name 0xffffffff 0 0 (by decide) (by decide) (by decide)

/-- A count of 10^8 needs nine digits: the row is 80 bytes long. -/
theorem fmtRow_wide (name : List Char) : (fmtRow name 100000000 1 1).length = 80 := by
  simp only [fmtRow, List.length_append, fmtName_length, List.length_cons, List.length_nil]
  decide

set_option maxRecDepth 100000 in
theorem fmtHeader_length (enabled : Bool) : (fmtHeader enabled).length = 316 := by
  cases enabled <;> rfl

theorem callRow_length (qwFreq : Nat) (ctxMain : VMM_MAIN_CONTEXT) (i : Nat)
    (hfit : ∀ t, ctxMain.pvStatistics = some t → (t i).c ≠ 0 → rowFits qwFreq (t i)) :
    (callRow qwFreq ctxMain i).length = 79 := by
  unfold callRow
  cases hp : ctxMain.pvStatistics with
  | none => exact fmtRow_length _ 0 0 0 (by decide) (by decide) (by decide)
  | some t =>
    simp only
    split_ifs with hc
    · obtain ⟨f1, f2, f3⟩ := hfit t hp hc
      exact fmtRow_length _ _ _ _ f1 f2 f3
    · exact fmtRow_length _ 0 0 0 (by decide) (by decide) (by decide)

theorem leechCoreRow_length (k : ReportConsts) (lcs : LEECHCORE_STATISTICS) (i : Nat)
    (hfit : (lcs.Call i).c ≠ 0 → rowFits lcs.qwFreq (lcs.Call i)) :
    (leechCoreRow k lcs i).length = 79 := by
  unfold leechCoreRow
  split_ifs with hc
  · obtain ⟨f1, f2, f3⟩ := hfit hc
    exact fmtRow_length _ _ _ _ f1 f2 f3
  · exact fmtRow_length _ 0 0 0 (by decide) (by decide) (by decide)

theorem snprintfAt_o (cb : Nat) (st : OutState) (txt : List Char) :
    (snprintfAt cb st txt).o = (st.o + txt.length) % 2 ^ 32 := rfl

/-- After a loop that prints `n` rows of 79 bytes the offset has advanced by
`79 * n` (as a `DWORD`). -/
theorem rows_o (cb : Nat) (row : Nat → List Char) (n : Nat)
    (hrow : ∀ i, i < n → (row i).length = 79) (st : OutState) (hst : st.o < 2 ^ 32) :
    ((List.range n).foldl (fun st i => snprintfAt cb st (row i)) st).o =
      (st.o + 79 * n) % 2 ^ 32 := by
  induction n with
  | zero => simp only [List.range_zero, List.foldl_nil]; omega
  | succ n ih =>
    rw [List.range_succ, List.foldl_append]
    simp only [List.foldl_cons, List.foldl_nil, snprintfAt_o, hrow n (Nat.lt_succ_self n)]
    rw [ih (fun i hi => hrow i (Nat.lt_succ_of_lt hi))]
    omega

/-- The value stored in `*pcb` when a buffer is passed and all printed numbers fit
their columns: 79 bytes for each of the four header lines and each row; the
LeechCore rows are counted only when the query result is valid.  The value does
not depend on `cb`. -/
theorem report_pcb (k : ReportConsts) (ctxMain : VMM_MAIN_CONTEXT) (qwFreq : Nat)
    (result : Bool) (lcs : LEECHCORE_STATISTICS) (cb : Nat)
    (hfit : ∀ t, ctxMain.pvStatistics = some t →
      ∀ i, i ≤ k.STATISTICS_ID_MAX → (t i).c ≠ 0 → rowFits qwFreq (t i))
    (hfitL : leechCoreValid k result lcs = true →
      ∀ i, i ≤ k.LEECHCORE_STATISTICS_ID_MAX → (lcs.Call i).c ≠ 0 →
        rowFits lcs.qwFreq (lcs.Call i)) :
    (Statistics_CallToString k ctxMain qwFreq result lcs true cb).pcb =
      if leechCoreValid k result lcs then
        (79 * (k.STATISTICS_ID_MAX + k.LEECHCORE_STATISTICS_ID_MAX + 6)) % 2 ^ 32
      else (79 * (k.STATISTICS_ID_MAX + 5)) % 2 ^ 32 := by
  have h0 : (snprintfAt cb ⟨0, []⟩ (fmtHeader ctxMain.pvStatistics.isSome)).o = 316 := by
    rw [snprintfAt_o, fmtHeader_length]; rfl
  have h1 := rows_o cb (callRow qwFreq ctxMain) (k.STATISTICS_ID_MAX + 1)
    (fun i hi => callRow_length qwFreq ctxMain i
      (fun t ht hc => hfit t ht i (Nat.lt_succ_iff.mp hi) hc))
    (snprintfAt cb ⟨0, []⟩ (fmtHeader ctxMain.pvStatistics.isSome)) (by rw [h0]; norm_num)
  rw [h0] at h1
  simp only [Statistics_CallToString, Bool.not_true, Bool.false_eq_true, if_false]
  split_ifs with hv
  · have h2 := rows_o cb (leechCoreRow k lcs) (k.LEECHCORE_STATISTICS_ID_MAX + 1)
      (fun i hi => leechCoreRow_length k lcs i (hfitL hv i (Nat.lt_succ_iff.mp hi)))
      ((List.range (k.STATISTICS_ID_MAX + 1)).foldl
        (fun st i => snprintfAt cb st (callRow qwFreq ctxMain i))
        (snprintfAt cb ⟨0, []⟩ (fmtHeader ctxMain.pvStatistics.isSome)))
      (by rw [h1]; exact Nat.mod_lt _ (by norm_num))
    rw [h1] at h2
    rw [h2]; omega
  · rw [h1]; omega

/-- C2 counterexample: with the registry disabled and the LeechCore query failing,
the size-only call returns 79 * 56 = 4424 while the call with a buffer of 4424 bytes reports
79 * 48 = 3792 bytes: the LeechCore rows are left out. -/
theorem report_size_mismatch_failed_query :
    (Statistics_CallToString sampleConsts ⟨none⟩ 10000000 false zeroLeechCoreStatistics
      false 0).pcb = 4424 ∧
    (Statistics_CallToString sampleConsts ⟨none⟩ 10000000 false zeroLeechCoreStatistics
      true 4424).pcb = 3792 := by
  constructor
  · decide
  · rw [report_pcb sampleConsts ⟨none⟩ 10000000 false zeroLeechCoreStatistics 4424
      (fun t ht => by cases ht) (fun _ i _ hc => absurd rfl hc)]
    decide

/-- C2 (amended): for every registry state and LeechCore answer in which every
printed number fits its column as `printf` reads it (`rowFits`: count and average
read by `%8i` as a signed 32-bit number strictly between -10^7 and 10^8, total read
by `%16lli` as a signed 64-bit number strictly between -10^15 and 10^16; required
of the LeechCore rows only when they are printed), and a non-zero performance
frequency: the size-only call returns
`79 * (STATISTICS_ID_MAX + LEECHCORE_STATISTICS_ID_MAX + 6)` (as a `DWORD`); when the
LeechCore answer is valid (query succeeded, magic and version match, frequency
non-zero) a call with a buffer of that capacity reports exactly that many bytes;
when it is not valid the call reports `79 * (STATISTICS_ID_MAX + 5)` bytes (as a
`DWORD`), the LeechCore rows being omitted, which is fewer than the size-only count
whenever that count is below 2^32. -/
theorem report_size_roundtrip (k : ReportConsts) (ctxMain : VMM_MAIN_CONTEXT) (qwFreq : Nat)
    (result : Bool) (lcs : LEECHCORE_STATISTICS) (cb0 : Nat) (hq : 0 < qwFreq)
    (hfit : ∀ t, ctxMain.pvStatistics = some t →
      ∀ i, i ≤ k.STATISTICS_ID_MAX → (t i).c ≠ 0 → rowFits qwFreq (t i))
    (hfitL : leechCoreValid k result lcs = true →
      ∀ i, i ≤ k.LEECHCORE_STATISTICS_ID_MAX → (lcs.Call i).c ≠ 0 →
        rowFits lcs.qwFreq (lcs.Call i)) :
    (Statistics_CallToString k ctxMain qwFreq result lcs false cb0).pcb =
      (79 * (k.STATISTICS_ID_MAX + k.LEECHCORE_STATISTICS_ID_MAX + 6)) % 2 ^ 32 ∧
    (leechCoreValid k result lcs = true →
      (Statistics_CallToString k ctxMain qwFreq result lcs true
          (Statistics_CallToString k ctxMain qwFreq result lcs false cb0).pcb).pcb =
        (Statistics_CallToString k ctxMain qwFreq result lcs false cb0).pcb) ∧
    (leechCoreValid k result lcs = false →
      (Statistics_CallToString k ctxMain qwFreq result lcs true
          (Statistics_CallToString k ctxMain qwFreq result lcs false cb0).pcb).pcb =
        (79 * (k.STATISTICS_ID_MAX + 5)) % 2 ^ 32 ∧
      (79 * (k.STATISTICS_ID_MAX + k.LEECHCORE_STATISTICS_ID_MAX + 6) < 2 ^ 32 →
        (Statistics_CallToString k ctxMain qwFreq result lcs true
            (Statistics_CallToString k ctxMain qwFreq result lcs false cb0).pcb).pcb <
          (Statistics_CallToString k ctxMain qwFreq result lcs false cb0).pcb)) := by
  have _ := hq
  have hsize : (Statistics_CallToString k ctxMain qwFreq result lcs false cb0).pcb =
      (79 * (k.STATISTICS_ID_MAX + k.LEECHCORE_STATISTICS_ID_MAX + 6)) % 2 ^ 32 := by
    simp [Statistics_CallToString]
  refine ⟨hsize, ?_, ?_⟩
  · intro hv
    rw [report_pcb k ctxMain qwFreq result lcs _ hfit hfitL, if_pos hv, hsize]
  · intro hv
    have hreal : (Statistics_CallToString k ctxMain qwFreq result lcs true
        (Statistics_CallToString k ctxMain qwFreq result lcs false cb0).pcb).pcb =
        (79 * (k.STATISTICS_ID_MAX + 5)) % 2 ^ 32 := by
      rw [report_pcb k ctxMain qwFreq result lcs _ hfit hfitL, hv]
      simp
    refine ⟨hreal, ?_⟩
    intro hsmall
    rw [hreal, hsize, Nat.mod_eq_of_lt hsmall,
      Nat.mod_eq_of_lt (show 79 * (k.STATISTICS_ID_MAX + 5) < 2 ^ 32 by omega)]
    omega

/-- C2 witness: the sample registry with a valid LeechCore answer: 4424 bytes both
times. -/
theorem report_size_roundtrip_witness :
    (0 < 10000000 ∧
      (∀ i, i ≤ sampleConsts.STATISTICS_ID_MAX →
        (if i = 6 then (⟨3, 150⟩ : CALLSTAT) else ⟨0, 0⟩).c ≠ 0 →
          rowFits 10000000 (if i = 6 then ⟨3, 150⟩ else ⟨0, 0⟩)) ∧
      (∀ i, i ≤ sampleConsts.LEECHCORE_STATISTICS_ID_MAX →
        (sampleLeechCoreStatistics.Call i).c ≠ 0 →
          rowFits sampleLeechCoreStatistics.qwFreq (sampleLeechCoreStatistics.Call i)) ∧
      leechCoreValid sampleConsts true sampleLeechCoreStatistics = true) ∧
    (Statistics_CallToString sampleConsts sampleContext 10000000 true
        sampleLeechCoreStatistics false 0).pcb = 4424 ∧
    (Statistics_CallToString sampleConsts sampleContext 10000000 true
        sampleLeechCoreStatistics true
        (Statistics_CallToString sampleConsts sampleContext 10000000 true
          sampleLeechCoreStatistics false 0).pcb).pcb =
      (Statistics_CallToString sampleConsts sampleContext 10000000 true
        sampleLeechCoreStatistics false 0).pcb :=
  have hfit : ∀ i, i ≤ sampleConsts.STATISTICS_ID_MAX →
      (if i = 6 then (⟨3, 150⟩ : CALLSTAT) else ⟨0, 0⟩).c ≠ 0 →
        rowFits 10000000 (if i = 6 then ⟨3, 150⟩ else ⟨0, 0⟩) := by decide
  have hfitL : ∀ i, i ≤ sampleConsts.LEECHCORE_STATISTICS_ID_MAX →
      (sampleLeechCoreStatistics.Call i).c ≠ 0 →
        rowFits sampleLeechCoreStatistics.qwFreq (sampleLeechCoreStatistics.Call i) := by decide
  have h := report_size_roundtrip sampleConsts sampleContext 10000000 true
    sampleLeechCoreStatistics 0 (by decide)
    (fun t ht => by cases ht; exact hfit) (fun _ => hfitL)
  ⟨⟨by decide, hfit, hfitL, by decide⟩, h.1, h.2.1 (by decide)⟩

/-! ### `Statistics_CallToString`: where the bytes are stored -/

/-- A `snprintf` step keeps the bytes stored before it. -/
theorem snprintfAt_writes_mono (cb : Nat) (st : OutState) (txt : List Char) (w : Nat × Char)
    (h : w ∈ st.writes) : w ∈ (snprintfAt cb st txt).writes := by
  simp only [snprintfAt, List.mem_append]
  exact Or.inl h

/-- A loop of `snprintf` steps keeps the bytes stored before it. -/
theorem rows_writes_mono (cb : Nat) (row : Nat → List Char) (l : List Nat) :
    ∀ (st : OutState) (w : Nat × Char), w ∈ st.writes →
      w ∈ (l.foldl (fun st i => snprintfAt cb st (row i)) st).writes := by
  induction l with
  | nil => intro st w h; exact h
  | cons i l ih =>
    intro st w h
    rw [List.foldl_cons]
    exact ih _ w (snprintfAt_writes_mono cb st (row i) w h)

/-- A `snprintf` step whose size argument `cb - o` (as a `DWORD`) is at least 2
stores the first character of its text at offset `o`. -/
theorem snprintfAt_first_write (cb : Nat) (st : OutState) (c : Char) (rest : List Char)
    (hn : 2 ≤ (cb + 2 ^ 32 - st.o % 2 ^ 32) % 2 ^ 32) :
    (st.o, c) ∈ (snprintfAt cb st (c :: rest)).writes := by
  unfold snprintfAt
  generalize (cb + 2 ^ 32 - st.o % 2 ^ 32) % 2 ^ 32 = n at hn
  obtain ⟨m, rfl⟩ : ∃ m, n = m + 2 := ⟨n - 2, by omega⟩
  have hm : m + 2 - 1 = m + 1 := by omega
  have hm0 : m + 2 ≠ 0 := by omega
  simp only [hm, if_neg hm0, List.take_succ_cons,
    List.cons_append, List.enum_cons, List.map_cons, List.mem_append, List.mem_cons,
    Nat.add_zero, true_or, or_true]

/-- The last statement `pb[o - 1] = '\n'` stores a newline at offset `*pcb - 1`
(as a `DWORD`), whatever `cb` is. -/
theorem report_final_newline (k : ReportConsts) (ctxMain : VMM_MAIN_CONTEXT) (qwFreq : Nat)
    (result : Bool) (lcs : LEECHCORE_STATISTICS) (cb : Nat) :
    (((Statistics_CallToString k ctxMain qwFreq result lcs true cb).pcb + 2 ^ 32 - 1) % 2 ^ 32,
        '\n') ∈ (Statistics_CallToString k ctxMain qwFreq result lcs true cb).writes := by
  simp only [Statistics_CallToString, Bool.not_true, Bool.false_eq_true, if_false]
  exact List.mem_append_right _ (List.mem_singleton.mpr rfl)

/-- The first row is stored at offset 316, right after the header text, as soon as
`cb - 316` (as a `DWORD`) is at least 2, also when `cb` is below 316. -/
theorem report_first_row_write (k : ReportConsts) (ctxMain : VMM_MAIN_CONTEXT) (qwFreq : Nat)
    (result : Bool) (lcs : LEECHCORE_STATISTICS) (cb : Nat) (c : Char) (rest : List Char)
    (hrow : callRow qwFreq ctxMain 0 = c :: rest)
    (hn : 2 ≤ (cb + 2 ^ 32 - 316) % 2 ^ 32) :
    (316, c) ∈ (Statistics_CallToString k ctxMain qwFreq result lcs true cb).writes := by
  have h0 : (snprintfAt cb ⟨0, []⟩ (fmtHeader ctxMain.pvStatistics.isSome)).o = 316 := by
    rw [snprintfAt_o, fmtHeader_length]; rfl
  have h1 : (316, c) ∈ (snprintfAt cb
      (snprintfAt cb ⟨0, []⟩ (fmtHeader ctxMain.pvStatistics.isSome))
      (callRow qwFreq ctxMain 0)).writes := by
    have := snprintfAt_first_write cb
      (snprintfAt cb ⟨0, []⟩ (fmtHeader ctxMain.pvStatistics.isSome)) c rest
      (by rw [h0]; exact hn)
    rw [h0] at this
    rw [hrow]; exact this
  have h2 : (316, c) ∈ ((List.range (k.STATISTICS_ID_MAX + 1)).foldl
      (fun st i => snprintfAt cb st (callRow qwFreq ctxMain i))
      (snprintfAt cb ⟨0, []⟩ (fmtHeader ctxMain.pvStatistics.isSome))).writes := by
    rw [List.range_succ_eq_map, List.foldl_cons]
    exact rows_writes_mono cb _ _ _ _ h1
  simp only [Statistics_CallToString, Bool.not_true, Bool.false_eq_true, if_false,
    List.mem_append]
  left
  split_ifs
  · exact rows_writes_mono cb _ _ _ _ h2
  · exact h2

/-- While the offset has not passed `cb`, a `snprintf` step stores below `cb`. -/
theorem snprintfAt_bounded (cb : Nat) (st : OutState) (txt : List Char)
    (hcb : cb < 2 ^ 32) (ho : st.o ≤ cb) (hw : ∀ w ∈ st.writes, w.1 < cb) :
    ∀ w ∈ (snprintfAt cb st txt).writes, w.1 < cb := by
  intro w hmem
  simp only [snprintfAt, List.mem_append, List.mem_map] at hmem
  rcases hmem with h | ⟨q, hq, rfl⟩
  · exact hw w h
  · have hlt := List.fst_lt_of_mem_enum hq
    have hn : (cb + 2 ^ 32 - st.o % 2 ^ 32) % 2 ^ 32 = cb - st.o := by omega
    rw [hn] at hlt
    by_cases h0 : cb - st.o = 0
    · rw [if_pos h0] at hlt; simp at hlt
    · rw [if_neg h0] at hlt
      simp only [List.length_append, List.length_take, List.length_cons, List.length_nil] at hlt
      simp only
      omega

/-- A loop printing `n` rows of 79 bytes stores below `cb` when the rows end at or
before `cb`. -/
theorem rows_bounded (cb : Nat) (row : Nat → List Char) (n : Nat)
    (hrow : ∀ i, i < n → (row i).length = 79) (st : OutState) (hcb : cb < 2 ^ 32)
    (ho : st.o + 79 * n ≤ cb) (hw : ∀ w ∈ st.writes, w.1 < cb) :
    ∀ w ∈ ((List.range n).foldl (fun st i => snprintfAt cb st (row i)) st).writes,
      w.1 < cb := by
  induction n with
  | zero => simpa using hw
  | succ n ih =>
    rw [List.range_succ, List.foldl_append]
    simp only [List.foldl_cons, List.foldl_nil]
    have hprev := ih (fun i hi => hrow i (Nat.lt_succ_of_lt hi)) (by omega)
    have hoPrev := rows_o cb row n (fun i hi => hrow i (Nat.lt_succ_of_lt hi)) st (by omega)
    exact snprintfAt_bounded cb _ (row n) hcb (by rw [hoPrev]; omega) hprev

/-- With printed numbers that fit their columns and a capacity `cb` (a `DWORD`) of
at least the length of the report text (79 bytes for each header line and row, the
LeechCore rows only when the query result is valid), every byte is stored below
offset `cb`. -/
theorem report_bounded_of_capacity (k : ReportConsts) (ctxMain : VMM_MAIN_CONTEXT)
    (qwFreq : Nat) (result : Bool) (lcs : LEECHCORE_STATISTICS) (cb : Nat)
    (hfit : ∀ t, ctxMain.pvStatistics = some t →
      ∀ i, i ≤ k.STATISTICS_ID_MAX → (t i).c ≠ 0 → rowFits qwFreq (t i))
    (hfitL : leechCoreValid k result lcs = true →
      ∀ i, i ≤ k.LEECHCORE_STATISTICS_ID_MAX → (lcs.Call i).c ≠ 0 →
        rowFits lcs.qwFreq (lcs.Call i))
    (hcb : cb < 2 ^ 32)
    (hcap : (if leechCoreValid k result lcs then
        79 * (k.STATISTICS_ID_MAX + k.LEECHCORE_STATISTICS_ID_MAX + 6)
      else 79 * (k.STATISTICS_ID_MAX + 5)) ≤ cb) :
    ∀ w ∈ (Statistics_CallToString k ctxMain qwFreq result lcs true cb).writes, w.1 < cb := by
  have hSM : 79 * (k.STATISTICS_ID_MAX + 5) ≤ cb := by
    split_ifs at hcap <;> omega
  have h0 : (snprintfAt cb ⟨0, []⟩ (fmtHeader ctxMain.pvStatistics.isSome)).o = 316 := by
    rw [snprintfAt_o, fmtHeader_length]; rfl
  have hrows : ∀ i, i < k.STATISTICS_ID_MAX + 1 → (callRow qwFreq ctxMain i).length = 79 :=
    fun i hi => callRow_length qwFreq ctxMain i
      (fun t ht hc => hfit t ht i (Nat.lt_succ_iff.mp hi) hc)
  have b0 : ∀ w ∈ (snprintfAt cb ⟨0, []⟩ (fmtHeader ctxMain.pvStatistics.isSome)).writes,
      w.1 < cb :=
    snprintfAt_bounded cb ⟨0, []⟩ _ hcb (Nat.zero_le _) (by intro w hw; cases hw)
  have b1 := rows_bounded cb (callRow qwFreq ctxMain) (k.STATISTICS_ID_MAX + 1) hrows
    (snprintfAt cb ⟨0, []⟩ (fmtHeader ctxMain.pvStatistics.isSome)) hcb
    (by rw [h0]; omega) b0
  have o1 := rows_o cb (callRow qwFreq ctxMain) (k.STATISTICS_ID_MAX + 1) hrows
    (snprintfAt cb ⟨0, []⟩ (fmtHeader ctxMain.pvStatistics.isSome)) (by rw [h0]; norm_num)
  rw [h0] at o1
  have o1' : ((List.range (k.STATISTICS_ID_MAX + 1)).foldl
      (fun st i => snprintfAt cb st (callRow qwFreq ctxMain i))
      (snprintfAt cb ⟨0, []⟩ (fmtHeader ctxMain.pvStatistics.isSome))).o =
      79 * (k.STATISTICS_ID_MAX + 5) := by
    rw [o1]; omega
  intro w hmem
  simp only [Statistics_CallToString, Bool.not_true, Bool.false_eq_true, if_false,
    List.mem_append, List.mem_singleton] at hmem
  by_cases hv : leechCoreValid k result lcs = true
  · rw [if_pos hv] at hcap
    simp only [if_pos hv] at hmem
    have hrowsL : ∀ i, i < k.LEECHCORE_STATISTICS_ID_MAX + 1 →
        (leechCoreRow k lcs i).length = 79 :=
      fun i hi => leechCoreRow_length k lcs i (hfitL hv i (Nat.lt_succ_iff.mp hi))
    have b2 := rows_bounded cb (leechCoreRow k lcs) (k.LEECHCORE_STATISTICS_ID_MAX + 1) hrowsL
      _ hcb (by rw [o1']; omega) b1
    have o2 := rows_o cb (leechCoreRow k lcs) (k.LEECHCORE_STATISTICS_ID_MAX + 1) hrowsL
      ((List.range (k.STATISTICS_ID_MAX + 1)).foldl
        (fun st i => snprintfAt cb st (callRow qwFreq ctxMain i))
        (snprintfAt cb ⟨0, []⟩ (fmtHeader ctxMain.pvStatistics.isSome)))
      (by rw [o1']; omega)
    rw [o1'] at o2
    rcases hmem with h | h
    · exact b2 w h
    · rw [h, o2]; simp only; omega
  · rw [if_neg hv] at hcap
    simp only [if_neg hv] at hmem
    rcases hmem with h | h
    · exact b1 w h
    · rw [h, o1']; simp only; omega

/-- With printed numbers that fit their columns, every capacity `cb` below the
length of the report text gets a byte stored at or past offset `cb`: the final
newline goes to the last offset of the full text. -/
theorem report_undersized_overflow (k : ReportConsts) (ctxMain : VMM_MAIN_CONTEXT)
    (qwFreq : Nat) (result : Bool) (lcs : LEECHCORE_STATISTICS) (cb : Nat)
    (hfit : ∀ t, ctxMain.pvStatistics = some t →
      ∀ i, i ≤ k.STATISTICS_ID_MAX → (t i).c ≠ 0 → rowFits qwFreq (t i))
    (hfitL : leechCoreValid k result lcs = true →
      ∀ i, i ≤ k.LEECHCORE_STATISTICS_ID_MAX → (lcs.Call i).c ≠ 0 →
        rowFits lcs.qwFreq (lcs.Call i))
    (hsmall : 79 * (k.STATISTICS_ID_MAX + k.LEECHCORE_STATISTICS_ID_MAX + 6) < 2 ^ 32)
    (hcb : cb < (if leechCoreValid k result lcs then
        79 * (k.STATISTICS_ID_MAX + k.LEECHCORE_STATISTICS_ID_MAX + 6)
      else 79 * (k.STATISTICS_ID_MAX + 5))) :
    ∃ w ∈ (Statistics_CallToString k ctxMain qwFreq result lcs true cb).writes, cb ≤ w.1 := by
  refine ⟨_, report_final_newline k ctxMain qwFreq result lcs cb, ?_⟩
  rw [report_pcb k ctxMain qwFreq result lcs cb hfit hfitL]
  simp only
  split_ifs at hcb ⊢ <;> omega

/-- After a loop of `snprintf` steps the offset has advanced by the sum of the
lengths of the texts (as a `DWORD`), whatever `cb` is. -/
theorem rows_o_sum (cb : Nat) (row : Nat → List Char) (n : Nat) (st : OutState)
    (hst : st.o < 2 ^ 32) :
    ((List.range n).foldl (fun st i => snprintfAt cb st (row i)) st).o =
      (st.o + ((List.range n).map (fun i => (row i).length)).sum) % 2 ^ 32 := by
  induction n with
  | zero => simp only [List.range_zero, List.foldl_nil, List.map_nil, List.sum_nil]; omega
  | succ n ih =>
    rw [List.range_succ, List.foldl_append, List.map_append, List.sum_append]
    simp only [List.foldl_cons, List.foldl_nil, snprintfAt_o, List.map_cons, List.map_nil,
      List.sum_cons, List.sum_nil]
    rw [ih]
    omega

/-- A count of 10^8 makes the text one byte longer than the size-only call
announces: with the registry `wideContext`, a valid LeechCore answer and a buffer of
exactly the announced 4424 bytes, `*pcb` is 4425 and the final newline is stored at
offset 4424, one past the buffer. -/
theorem report_overflow_sized_buffer :
    (Statistics_CallToString sampleConsts wideContext 10000000 true
      sampleLeechCoreStatistics false 0).pcb = 4424 ∧
    (Statistics_CallToString sampleConsts wideContext 10000000 true
      sampleLeechCoreStatistics true 4424).pcb = 4425 ∧
    (4424, '\n') ∈ (Statistics_CallToString sampleConsts wideContext 10000000 true
      sampleLeechCoreStatistics true 4424).writes := by
  have hlen : ∀ i, i ∈ List.range 44 →
      (callRow 10000000 wideContext i).length = if i = 0 then 80 else 79 := by
    intro i _
    by_cases hi : i = 0
    · subst hi; decide
    · rw [if_neg hi]
      exact callRow_length 10000000 wideContext i (fun t ht hc => by
        simp only [wideContext, Option.some.injEq] at ht
        subst ht
        simp [hi] at hc)
  have hsum : ((List.range 44).map (fun i => (callRow 10000000 wideContext i).length)).sum
      = 3477 := by
    rw [List.map_congr_left hlen]; decide
  have h0 : (snprintfAt 4424 ⟨0, []⟩ (fmtHeader wideContext.pvStatistics.isSome)).o = 316 := by
    rw [snprintfAt_o, fmtHeader_length]; rfl
  have h1 := rows_o_sum 4424 (callRow 10000000 wideContext) 44
    (snprintfAt 4424 ⟨0, []⟩ (fmtHeader wideContext.pvStatistics.isSome))
    (by rw [h0]; norm_num)
  rw [h0, hsum] at h1
  have h2 := rows_o 4424 (leechCoreRow sampleConsts sampleLeechCoreStatistics) 8
    (fun i _ => leechCoreRow_length sampleConsts sampleLeechCoreStatistics i
      (fun _ => (by decide : rowFits 10000000 ⟨2, 40⟩)))
    ((List.range 44).foldl (fun st i => snprintfAt 4424 st (callRow 10000000 wideContext i))
      (snprintfAt 4424 ⟨0, []⟩ (fmtHeader wideContext.pvStatistics.isSome)))
    (by rw [h1]; norm_num)
  rw [h1] at h2
  have hv : leechCoreValid sampleConsts true sampleLeechCoreStatistics = true := by decide
  have hp : (Statistics_CallToString sampleConsts wideContext 10000000 true
      sampleLeechCoreStatistics true 4424).pcb = 4425 := by
    simp only [Statistics_CallToString, Bool.not_true, Bool.false_eq_true, if_false, hv,
      if_true]
    exact h2
  refine ⟨by decide, hp, ?_⟩
  have h := report_final_newline sampleConsts wideContext 10000000 true
    sampleLeechCoreStatistics 4424
  rw [hp] at h
  exact h

/-- C11: with the registry disabled and the LeechCore query failing (44 call
statistics, report text of 3792 bytes), `Statistics_CallToString` stores bytes at
or past the capacity `cb`: for `cb = 100` the first character of the first row at
offset 316 (the `snprintf` after the header gets the wrapped size `100 - 316`) and
the final newline at offset 3791; for `cb = 3791`, one byte short, the final
newline at offset 3791 (`o - 1` with `o = 3792`). -/
theorem report_writes_past_capacity :
    ((100 : Nat) ≤ 316 ∧
      (316, 'I') ∈ (Statistics_CallToString sampleConsts ⟨none⟩ 10000000 false
        zeroLeechCoreStatistics true 100).writes) ∧
    ((100 : Nat) ≤ 3791 ∧
      (3791, '\n') ∈ (Statistics_CallToString sampleConsts ⟨none⟩ 10000000 false
        zeroLeechCoreStatistics true 100).writes) ∧
    ((3791 : Nat) ≤ 3791 ∧
      (3791, '\n') ∈ (Statistics_CallToString sampleConsts ⟨none⟩ 10000000 false
        zeroLeechCoreStatistics true 3791).writes) := by
  have hp : ∀ cb, (Statistics_CallToString sampleConsts ⟨none⟩ 10000000 false
      zeroLeechCoreStatistics true cb).pcb = 3792 := by
    intro cb
    rw [report_pcb sampleConsts ⟨none⟩ 10000000 false zeroLeechCoreStatistics cb
      (fun t ht => by cases ht) (fun _ i _ hc => absurd rfl hc)]
    decide
  refine ⟨⟨by decide, ?_⟩, ⟨by decide, ?_⟩, ⟨le_refl _, ?_⟩⟩
  · exact report_first_row_write sampleConsts ⟨none⟩ 10000000 false zeroLeechCoreStatistics
      100 'I' (callRow 10000000 ⟨none⟩ 0).tail (by decide) (by decide)
  · have h := report_final_newline sampleConsts ⟨none⟩ 10000000 false
      zeroLeechCoreStatistics 100
    rw [hp 100] at h
    exact h
  · have h := report_final_newline sampleConsts ⟨none⟩ 10000000 false
      zeroLeechCoreStatistics 3791
    rw [hp 3791] at h
    exact h

end Vmm
